import Mathlib

/-!
# Verification of the mafia video-conference signaling core

This file gives a shallow embedding of the room coordinator of
`src/server/routes.ts` (the version that tracks the `isKilled` flag) and of
the SFU facade of the mediasoup module (the version with a single receive
transport per participant, whose `removeParticipant` closes the per
participant consumers; it is the module imported by `routes.ts`).

Modelling conventions:
* JavaScript `Map`s become association lists with JS `Map` semantics:
  `set` replaces in place or appends, `delete` removes the entry,
  iteration follows insertion order.
* Participant and room ids are `String`s, exactly as in the source.
  Transport, producer and consumer ids are handed out by the media engine;
  they are modelled by a process-wide fresh counter (`nextId`), which is
  faithful to the engine's guarantee that these ids are unique.
* Opaque payloads (RTP capability blobs, DTLS parameters, RTP parameters,
  media kind) are not inspected by the core, and are dropped from the
  embedding, except for the one bit the core branches on: whether a JOIN
  carries `rtpCapabilities`.  Whether the router can consume a producer
  with the requester's capabilities is an oracle bit carried by the
  request, conjoined with liveness of the producer in the router (the
  engine's `canConsume` is false for an unknown or closed producer).
* Each handler returns the new server state, the session's new
  `currentRoomId`, the list of messages passed to `sendToClient`
  (tagged with the id of the receiving session), and the list of facade
  invocations it performed.
-/

/-- Association list lookup, mirroring JS `Map.get`. -/
def lookupA [DecidableEq α] (k : α) : List (α × β) → Option β
  | [] => none
  | (k', v') :: rest => if k' = k then some v' else lookupA k rest

/-- Association list update, mirroring JS `Map.set`: replace the entry in
place if the key is present, otherwise append at the end. -/
def setA [DecidableEq α] (k : α) (v : β) : List (α × β) → List (α × β)
  | [] => [(k, v)]
  | (k', v') :: rest => if k' = k then (k, v) :: rest else (k', v') :: setA k v rest

/-- Association list removal, mirroring JS `Map.delete`. -/
def eraseA [DecidableEq α] (k : α) : List (α × β) → List (α × β)
  | [] => []
  | (k', v') :: rest => if k' = k then rest else (k', v') :: eraseA k rest

theorem lookupA_setA_self [DecidableEq α] (k : α) (v : β) (l : List (α × β)) :
    lookupA k (setA k v l) = some v := by
  induction l with
  | nil => simp [setA, lookupA]
  | cons hd tl ih =>
    by_cases h : hd.1 = k <;> simp [setA, lookupA, h, ih]

theorem lookupA_setA_ne [DecidableEq α] {k q : α} (v : β) (l : List (α × β))
    (h : q ≠ k) : lookupA q (setA k v l) = lookupA q l := by
  have h' : k ≠ q := Ne.symm h
  induction l with
  | nil => simp [setA, lookupA, h']
  | cons hd tl ih =>
    by_cases hk : hd.1 = k
    · subst hk
      simp [setA, lookupA, h', ih]
    · by_cases hq : hd.1 = q <;> simp [setA, lookupA, hk, hq, h, ih]

theorem lookupA_eraseA_ne [DecidableEq α] {k q : α} (l : List (α × β))
    (h : q ≠ k) : lookupA q (eraseA k l) = lookupA q l := by
  have h' : k ≠ q := Ne.symm h
  induction l with
  | nil => simp [eraseA, lookupA]
  | cons hd tl ih =>
    by_cases hk : hd.1 = k
    · subst hk
      simp [eraseA, lookupA, h', ih]
    · by_cases hq : hd.1 = q <;> simp [eraseA, lookupA, hk, hq, h, ih]

theorem lookupA_eq_none_of_not_mem [DecidableEq α] {k : α} {l : List (α × β)}
    (h : k ∉ l.map Prod.fst) : lookupA k l = none := by
  induction l with
  | nil => rfl
  | cons hd tl ih =>
    simp only [List.map_cons, List.mem_cons, not_or] at h
    simp [lookupA, Ne.symm h.1, ih h.2]

theorem lookupA_eraseA_self [DecidableEq α] (k : α) (l : List (α × β))
    (hnd : (l.map Prod.fst).Nodup) : lookupA k (eraseA k l) = none := by
  induction l with
  | nil => simp [eraseA, lookupA]
  | cons hd tl ih =>
    simp only [List.map_cons, List.nodup_cons] at hnd
    by_cases hk : hd.1 = k
    · subst hk
      simpa [eraseA] using lookupA_eq_none_of_not_mem hnd.1
    · simp [eraseA, lookupA, hk, ih hnd.2]

theorem keys_setA [DecidableEq α] (k : α) (v : β) (l : List (α × β)) :
    ((setA k v l).map Prod.fst) = if k ∈ l.map Prod.fst then l.map Prod.fst
      else l.map Prod.fst ++ [k] := by
  induction l with
  | nil => simp [setA]
  | cons hd tl ih =>
    by_cases h : hd.1 = k
    · subst h; simp [setA]
    · have h' : ¬k = hd.1 := fun hh => h hh.symm
      simp only [setA, if_neg h, List.map_cons, ih, List.mem_cons]
      by_cases hm : k ∈ tl.map Prod.fst <;> simp [hm, h']

theorem nodup_keys_setA [DecidableEq α] (k : α) (v : β) (l : List (α × β))
    (hnd : (l.map Prod.fst).Nodup) : ((setA k v l).map Prod.fst).Nodup := by
  rw [keys_setA]
  by_cases hm : k ∈ l.map Prod.fst
  · simpa [hm]
  · simp only [if_neg hm]
    exact List.Nodup.append hnd (List.nodup_singleton k)
      (by simpa [List.disjoint_singleton] using hm)

theorem keys_eraseA_sublist [DecidableEq α] (k : α) (l : List (α × β)) :
    ((eraseA k l).map Prod.fst).Sublist (l.map Prod.fst) := by
  induction l with
  | nil => simp [eraseA]
  | cons hd tl ih =>
    by_cases h : hd.1 = k
    · subst h
      simp only [eraseA, if_pos rfl, List.map_cons]
      exact List.sublist_cons_self _ _
    · simpa [eraseA, h] using ih.cons₂ hd.1

theorem nodup_keys_eraseA [DecidableEq α] (k : α) (l : List (α × β))
    (hnd : (l.map Prod.fst).Nodup) : ((eraseA k l).map Prod.fst).Nodup :=
  (keys_eraseA_sublist k l).nodup hnd

theorem lookupA_isSome_of_mem_keys [DecidableEq α] {k : α} {l : List (α × β)}
    (h : k ∈ l.map Prod.fst) : (lookupA k l).isSome := by
  induction l with
  | nil => simp at h
  | cons hd tl ih =>
    simp only [List.map_cons, List.mem_cons] at h
    by_cases h2 : hd.1 = k
    · simp [lookupA, h2]
    · rcases h with h1 | h1
      · exact absurd h1.symm h2
      · simp [lookupA, h2, ih h1]

theorem mem_keys_of_lookupA_isSome [DecidableEq α] {k : α} {l : List (α × β)}
    (h : (lookupA k l).isSome) : k ∈ l.map Prod.fst := by
  induction l with
  | nil => simp [lookupA] at h
  | cons hd tl ih =>
    by_cases h2 : hd.1 = k
    · simp [h2]
    · simp only [lookupA, if_neg h2] at h
      simpa using Or.inr (ih h)

/-! ## The SFU facade (the mediasoup module)

State of the mediasoup module: the per-participant slots
(`sendTransport`, the single `recvTransport`, and the per-participant
`consumers` map keyed by producer id), the global `producers` map (kept as
the list of live producer ids) and the global `consumers` map
(consumer id ↦ the producer id it consumes).  `nextId` is the engine's
fresh-id source for transports, producers and consumers. -/

/-- Per-participant slot of `participantTransports`. -/
structure PTData where
  sendTransport : Option Nat
  recvTransport : Option Nat
  consumers : List (Nat × Nat)
deriving DecidableEq, Repr

/-- Process-wide state of the mediasoup module. -/
structure FacadeState where
  participantTransports : List (String × PTData)
  producers : List Nat
  consumers : List (Nat × Nat)
  nextId : Nat
deriving DecidableEq, Repr

/-- `createTransport(participantId)`: create a fresh send transport, create
the participant slot if needed, and store the transport in
`sendTransport`.  Returns the new transport's id (its ICE/DTLS parameters
and the router capabilities are opaque). -/
def FacadeState.createTransport (f : FacadeState) (pid : String) :
    FacadeState × Nat :=
  let t := f.nextId
  let data := (lookupA pid f.participantTransports).getD ⟨none, none, []⟩
  ({ f with
      participantTransports :=
        setA pid { data with sendTransport := some t } f.participantTransports,
      nextId := t + 1 }, t)

/-- `createConsumerTransport(participantId)`: if the participant already
has a receive transport, return it unchanged; otherwise create a fresh
transport, create the participant slot if needed, and store it in
`recvTransport`.  (The extra `producerId` argument that `routes.ts` passes
is not in this function's parameter list and is ignored.) -/
def FacadeState.createConsumerTransport (f : FacadeState) (pid : String) :
    FacadeState × Nat :=
  match lookupA pid f.participantTransports with
  | some data =>
    match data.recvTransport with
    | some t => (f, t)
    | none =>
      let t := f.nextId
      ({ f with
          participantTransports :=
            setA pid { data with recvTransport := some t } f.participantTransports,
          nextId := t + 1 }, t)
  | none =>
    let t := f.nextId
    ({ f with
        participantTransports :=
          setA pid ⟨none, some t, []⟩ f.participantTransports,
        nextId := t + 1 }, t)

/-- `connectTransport(transportId, dtls)` scans every participant's send
and receive slot for the transport; it throws iff no transport matches.
Connecting leaves the facade's maps unchanged, so only success is
modelled. -/
def FacadeState.connectTransportOk (f : FacadeState) (tid : Nat) : Bool :=
  f.participantTransports.any
    (fun pd => pd.2.sendTransport = some tid || pd.2.recvTransport = some tid)

/-- `produce(transportId, kind, rtpParameters)`: find the participant whose
send transport has this id (throwing `Send transport not found` if none),
create a producer on it and record it in the global `producers` map. -/
def FacadeState.produce (f : FacadeState) (tid : Nat) :
    Except String (FacadeState × Nat) :=
  if f.participantTransports.any (fun pd => pd.2.sendTransport = some tid) then
    let p := f.nextId
    .ok ({ f with producers := f.producers ++ [p], nextId := p + 1 }, p)
  else
    .error ("Send transport not found: " ++ toString tid)

/-- The three failure modes of `consume`, in the order the source checks
them. -/
inductive ConsumeErr where
  | participantNotFound
  | recvTransportNotFound
  | cannotConsume
deriving DecidableEq, Repr

/-- The exact error message texts thrown by `consume`. -/
def consumeErrMessage : ConsumeErr → String → Nat → String
  | .participantNotFound, pid, _ => "Participant " ++ pid ++ " not found"
  | .recvTransportNotFound, pid, _ =>
      "Receive transport for participant " ++ pid ++ " not found"
  | .cannotConsume, _, producerId =>
      "Cannot consume producer " ++ toString producerId ++
        " with the given RTP capabilities"

/-- `consume(participantId, producerId, rtpCapabilities)`: check the
participant slot exists, check the receive transport exists, check
`router.canConsume` (false when the producer is unknown or closed in the
router; capability compatibility is the caller-supplied oracle bit
`capsOk`), then create the consumer, store it in the global `consumers`
map and in the participant's `consumers` map keyed by the producer id.
Returns the consumer id (kind and RTP parameters are opaque). -/
def FacadeState.consume (f : FacadeState) (pid : String) (producerId : Nat)
    (capsOk : Bool) : Except ConsumeErr (FacadeState × Nat) :=
  match lookupA pid f.participantTransports with
  | none => .error .participantNotFound
  | some data =>
    match data.recvTransport with
    | none => .error .recvTransportNotFound
    | some _ =>
      if producerId ∈ f.producers ∧ capsOk then
        let c := f.nextId
        .ok ({ f with
            consumers := f.consumers ++ [(c, producerId)],
            participantTransports :=
              setA pid { data with consumers := setA producerId c data.consumers }
                f.participantTransports,
            nextId := c + 1 }, c)
      else
        .error .cannotConsume

/-- `closeProducer(producerId)`: close and drop the producer if present,
then close and drop every global consumer attached to it.  The
per-participant `consumers` maps are not touched. -/
def FacadeState.closeProducer (f : FacadeState) (producerId : Nat) :
    FacadeState :=
  { f with
      producers := f.producers.filter (fun q => q ≠ producerId),
      consumers := f.consumers.filter (fun cp => cp.2 ≠ producerId) }

/-- `removeParticipant(participantId)`: close every consumer recorded in
the participant's slot (dropping each from the global `consumers` map by
its id), close both transports, and delete the slot.  A no-op when the
participant has no slot. -/
def FacadeState.removeParticipant (f : FacadeState) (pid : String) :
    FacadeState :=
  match lookupA pid f.participantTransports with
  | none => f
  | some data =>
    { f with
        consumers :=
          f.consumers.filter (fun cp => cp.1 ∉ data.consumers.map Prod.snd),
        participantTransports := eraseA pid f.participantTransports }

/-! ## `String.includes`, as used by the consume error handler -/

/-- `pat` occurs as a contiguous run inside `l` (`String.prototype.includes`
on the underlying character lists). -/
def hasSubrun (pat : List Char) : List Char → Bool
  | [] => pat.isEmpty
  | c :: rest => pat.isPrefixOf (c :: rest) || hasSubrun pat rest

/-- JS `message.includes(pattern)`. -/
def strIncludes (s pat : String) : Bool :=
  hasSubrun pat.data s.data

/-- The condition under which the consume error handler additionally sends
`producer-closed`: the thrown message mentions `Cannot consume producer`
or `not found`. -/
def mentionsGoneProducer (msg : String) : Bool :=
  strIncludes msg "Cannot consume producer" || strIncludes msg "not found"

theorem isPrefixOf_append_self [DecidableEq α] (p b : List α) :
    p.isPrefixOf (p ++ b) = true := by
  induction p with
  | nil => simp [List.isPrefixOf]
  | cons hd tl ih => simp [List.isPrefixOf, ih]

theorem hasSubrun_append_self (p b : List Char) :
    hasSubrun p (p ++ b) = true := by
  cases p with
  | nil =>
    cases b with
    | nil => rfl
    | cons hd tl => simp [hasSubrun, List.isPrefixOf]
  | cons hd tl =>
    simp [hasSubrun, isPrefixOf_append_self]

theorem hasSubrun_append_left (p : List Char) (a : List Char) {b : List Char}
    (h : hasSubrun p b = true) : hasSubrun p (a ++ b) = true := by
  induction a with
  | nil => simpa
  | cons hd tl ih => simp [hasSubrun, ih]

theorem string_data_append (s t : String) : (s ++ t).data = s.data ++ t.data := by
  cases s; cases t; rfl

/-- Every message `consume` can throw matches the handler's
`Cannot consume producer` / `not found` test. -/
theorem mentionsGoneProducer_consumeErrMessage (e : ConsumeErr) (pid : String)
    (producerId : Nat) :
    mentionsGoneProducer (consumeErrMessage e pid producerId) = true := by
  cases e with
  | participantNotFound =>
    have : strIncludes ("Participant " ++ pid ++ " not found") "not found" = true := by
      unfold strIncludes
      rw [string_data_append, string_data_append, List.append_assoc]
      refine hasSubrun_append_left _ _ (hasSubrun_append_left _ pid.data ?_)
      have hsplit : (" not found" : String).data = [' '] ++ ("not found" : String).data := by
        decide
      rw [hsplit]
      exact hasSubrun_append_left _ [' ']
        (by simpa using hasSubrun_append_self ("not found" : String).data [])
    simp [mentionsGoneProducer, consumeErrMessage, this]
  | recvTransportNotFound =>
    have : strIncludes ("Receive transport for participant " ++ pid ++ " not found")
        "not found" = true := by
      unfold strIncludes
      rw [string_data_append, string_data_append, List.append_assoc]
      refine hasSubrun_append_left _ _ (hasSubrun_append_left _ pid.data ?_)
      have hsplit : (" not found" : String).data = [' '] ++ ("not found" : String).data := by
        decide
      rw [hsplit]
      exact hasSubrun_append_left _ [' ']
        (by simpa using hasSubrun_append_self ("not found" : String).data [])
    simp [mentionsGoneProducer, consumeErrMessage, this]
  | cannotConsume =>
    have : strIncludes
        ("Cannot consume producer " ++ toString producerId ++
          " with the given RTP capabilities") "Cannot consume producer" = true := by
      unfold strIncludes
      rw [string_data_append, string_data_append]
      have hsplit : ("Cannot consume producer " : String).data =
          ("Cannot consume producer" : String).data ++ [' '] := by decide
      rw [hsplit, List.append_assoc, List.append_assoc]
      exact hasSubrun_append_self _ _
    simp [mentionsGoneProducer, consumeErrMessage, this]

/-! ## The room coordinator (`src/server/routes.ts`) -/

/-- A participant record inside a room's `participants` map.  The `socket`
reference is implicit: the map key is the id of the session that owns the
socket, and outbound messages are addressed by that id. -/
structure PartRec where
  producerId : Option Nat
  rtpCapabilities : Bool
  isKilled : Bool
deriving DecidableEq, Repr

/-- A room: its `participants` map. -/
abbrev Room := List (String × PartRec)

/-- Process-wide server state: the `rooms` map plus the facade state. -/
structure ServerState where
  rooms : List (String × Room)
  facade : FacadeState
deriving DecidableEq, Repr

/-- Messages the server sends to clients.  Opaque payload fields (ICE/DTLS
parameters, RTP parameters, kinds, nickname previous names) are omitted;
id-carrying fields are kept. -/
inductive SMsg where
  | welcome (transportId : Nat)
  | newProducer (producerId : Nat) (participantId : String)
  | participantKilled (participantId : String) (killed : Bool)
  | produceResponse (id : Nat)
  | consumeResponse (consumerId producerId transportId : Nat)
      (participantId : String)
  | producerClosed (producerId : Nat) (participantId : String)
  | disconnected (participantId : String)
  | nicknameChange (participantId : String) (nickname : String)
      (isLocalChange : Bool)
  | pong
  | errorMsg (error : String)
deriving DecidableEq, Repr

/-- Inbound frames, after the gateway's JSON parse.  `malformed` stands
for a frame whose JSON parse throws; `unknown` for a parsed object whose
`type` is none of the known ones. -/
inductive CMsg where
  | join (roomId : Option String) (hasCaps : Bool)
  | leave
  | connectTransport (transportId : Nat)
  | produce (transportId : Nat)
  | requestConsume (producerId : Nat) (capsOk : Bool)
      (participantId : Option String)
  | nicknameChange (nickname : String)
  | participantKilled (killed : Bool)
  | ping
  | unknown (ty : String)
  | malformed
deriving DecidableEq, Repr

/-- Facade invocations, recorded in the order the coordinator makes them. -/
inductive FCall where
  | createTransport (pid : String)
  | createConsumerTransport (pid : String)
  | connectTransport (tid : Nat)
  | produceCall (tid : Nat)
  | consumeCall (pid : String) (producerId : Nat)
  | closeProducer (producerId : Nat)
  | removeParticipant (pid : String)
deriving DecidableEq, Repr

/-- Result of one handler invocation: new server state, the session's new
`currentRoomId`, the messages sent (receiver id, message), and the facade
calls made. -/
structure HRes where
  state : ServerState
  cur : Option String
  sends : List (String × SMsg)
  calls : List FCall
deriving DecidableEq, Repr

/-- `msg.roomId || defaultRoom`. -/
def normRoom (roomId : Option String) : String :=
  roomId.getD "default-room"

/-- `notifyParticipants(room, senderId, message)`: send to every
participant of the room except the sender. -/
def notifyParticipants (room : Room) (senderId : String) (m : SMsg) :
    List (String × SMsg) :=
  room.flatMap (fun qe => if qe.1 ≠ senderId then [(qe.1, m)] else [])

/-- `handleJoin`.  With `rtpCapabilities` present and the participant
already in the room: store the capabilities and notify the joiner of every
other participant's producer (and killed status).  Otherwise (first JOIN):
add a fresh record to the room, set the session's current room, create the
send transport and send `welcome`. -/
def handleJoin (s : ServerState) (cur : Option String) (pid : String)
    (roomId : Option String) (hasCaps : Bool) : HRes :=
  let rid := normRoom roomId
  let rooms₁ :=
    if (lookupA rid s.rooms).isSome then s.rooms else s.rooms ++ [(rid, [])]
  let R := (lookupA rid rooms₁).getD []
  match hasCaps, lookupA pid R with
  | true, some prec =>
    let R' := setA pid { prec with rtpCapabilities := true } R
    let sends := R'.flatMap (fun qe =>
      if qe.1 ≠ pid then
        match qe.2.producerId with
        | some p =>
          (pid, SMsg.newProducer p qe.1) ::
            (if qe.2.isKilled then [(pid, SMsg.participantKilled qe.1 true)] else [])
        | none => []
      else [])
    ⟨{ s with rooms := setA rid R' rooms₁ }, cur, sends, []⟩
  | _, _ =>
    let R' := setA pid ⟨none, false, false⟩ R
    let ft := s.facade.createTransport pid
    ⟨{ s with rooms := setA rid R' rooms₁, facade := ft.1 }, some rid,
      [(pid, SMsg.welcome ft.2)], [FCall.createTransport pid]⟩

/-- `handleLeave`: when the session has a current room, close the
participant's producer (if any) and fan out `producer-closed`, remove the
participant from the room, fan out `disconnect`, call
`facade.removeParticipant`, and clear the session's current room. -/
def handleLeave (s : ServerState) (cur : Option String) (pid : String) : HRes :=
  match cur with
  | none => ⟨s, none, [], []⟩
  | some rid =>
    let R := (lookupA rid s.rooms).getD []
    match lookupA pid R with
    | some rec =>
      let closePart :=
        match rec.producerId with
        | some p =>
          (s.facade.closeProducer p, [FCall.closeProducer p],
            notifyParticipants R pid (SMsg.producerClosed p pid))
        | none => (s.facade, [], [])
      let R' := eraseA pid R
      ⟨{ s with
          rooms := setA rid R' s.rooms,
          facade := closePart.1.removeParticipant pid }, none,
        closePart.2.2 ++ notifyParticipants R' pid (SMsg.disconnected pid),
        closePart.2.1 ++ [FCall.removeParticipant pid]⟩
    | none =>
      ⟨{ s with facade := s.facade.removeParticipant pid }, none, [],
        [FCall.removeParticipant pid]⟩

/-- `handleProduce`: error when the session is in no room; otherwise call
`facade.produce`, store the producer id on the participant's record, reply
`produce-response` and fan out `new-producer` to the other members.  A
facade failure propagates to the gateway's catch, which sends the generic
error frame. -/
def handleProduce (s : ServerState) (cur : Option String) (pid : String)
    (tid : Nat) : HRes :=
  match cur with
  | none => ⟨s, none, [(pid, SMsg.errorMsg "Not in a room")], []⟩
  | some rid =>
    match s.facade.produce tid with
    | .error _ =>
      ⟨s, some rid, [(pid, SMsg.errorMsg "Failed to process request")],
        [FCall.produceCall tid]⟩
    | .ok fp =>
      let R := (lookupA rid s.rooms).getD []
      let R' :=
        match lookupA pid R with
        | some rec => setA pid { rec with producerId := some fp.2 } R
        | none => R
      ⟨{ s with rooms := setA rid R' s.rooms, facade := fp.1 }, some rid,
        (pid, SMsg.produceResponse fp.2) ::
          notifyParticipants R' pid (SMsg.newProducer fp.2 pid),
        [FCall.produceCall tid]⟩

/-- `handleConsume`: error when the session is in no room; otherwise
create (idempotently) the receive transport, call `facade.consume`, and
either reply `consume-response` (consumer parameters, the receive
transport's options, and the echoed source participant id) or send the
error frame plus — when the message matches the gone-producer test —
`producer-closed`. -/
def handleConsume (s : ServerState) (cur : Option String) (pid : String)
    (producerId : Nat) (capsOk : Bool) (mpid : Option String) : HRes :=
  match cur with
  | none => ⟨s, none, [(pid, SMsg.errorMsg "Not in a room")], []⟩
  | some rid =>
    let ft := s.facade.createConsumerTransport pid
    match ft.1.consume pid producerId capsOk with
    | .ok fc =>
      ⟨{ s with facade := fc.1 }, some rid,
        [(pid, SMsg.consumeResponse fc.2 producerId ft.2 (mpid.getD "unknown"))],
        [FCall.createConsumerTransport pid, FCall.consumeCall pid producerId]⟩
    | .error e =>
      let m := consumeErrMessage e pid producerId
      ⟨{ s with facade := ft.1 }, some rid,
        (pid, SMsg.errorMsg ("Failed to create consumer: " ++ m)) ::
          (if mentionsGoneProducer m then
            [(pid, SMsg.producerClosed producerId (mpid.getD "unknown"))]
          else []),
        [FCall.createConsumerTransport pid, FCall.consumeCall pid producerId]⟩

/-- The `participant-killed` handler: when in a room and present there,
update the `isKilled` flag and fan out the new status. -/
def handleKilled (s : ServerState) (cur : Option String) (pid : String)
    (killed : Bool) : HRes :=
  match cur with
  | none => ⟨s, none, [], []⟩
  | some rid =>
    let R := (lookupA rid s.rooms).getD []
    match lookupA pid R with
    | none => ⟨s, some rid, [], []⟩
    | some rec =>
      let R' := setA pid { rec with isKilled := killed } R
      ⟨{ s with rooms := setA rid R' s.rooms }, some rid,
        notifyParticipants R' pid (SMsg.participantKilled pid killed), []⟩

/-- The `nickname-change` handler: when in a room, fan out the change and
echo it back to the sender with `isLocalChange: true`.  No server state is
touched. -/
def handleNickname (s : ServerState) (cur : Option String) (pid : String)
    (nickname : String) : HRes :=
  match cur with
  | none => ⟨s, none, [], []⟩
  | some rid =>
    let R := (lookupA rid s.rooms).getD []
    ⟨s, some rid,
      notifyParticipants R pid (SMsg.nicknameChange pid nickname false) ++
        [(pid, SMsg.nicknameChange pid nickname true)], []⟩

/-- The gateway's message dispatch (`socket.on('message')`), including its
catch-all: a malformed frame's parse error and a thrown facade error both
elicit one generic error frame; an unknown `type` is only logged. -/
def handleMessage (s : ServerState) (cur : Option String) (pid : String) :
    CMsg → HRes
  | .join roomId hasCaps => handleJoin s cur pid roomId hasCaps
  | .leave => handleLeave s cur pid
  | .connectTransport tid =>
    if s.facade.connectTransportOk tid then
      ⟨s, cur, [], [FCall.connectTransport tid]⟩
    else
      ⟨s, cur, [(pid, SMsg.errorMsg "Failed to process request")],
        [FCall.connectTransport tid]⟩
  | .produce tid => handleProduce s cur pid tid
  | .requestConsume producerId capsOk mpid =>
    handleConsume s cur pid producerId capsOk mpid
  | .nicknameChange nickname => handleNickname s cur pid nickname
  | .participantKilled killed => handleKilled s cur pid killed
  | .ping => ⟨s, cur, [(pid, SMsg.pong)], []⟩
  | .unknown _ => ⟨s, cur, [], []⟩
  | .malformed =>
    ⟨s, cur, [(pid, SMsg.errorMsg "Failed to process request")], []⟩

/-! ## System traces

A trace interleaves frames from any number of sessions.  A session is
identified by the participant id assigned at `connection`; its
`currentRoom`/`currentRoomId` pair is modelled by one optional room id
(the two variables are always set and cleared together, and rooms are
never removed from the `rooms` map, so the object reference and the id
are interchangeable).  The `close` event runs the same `handleLeave` as a
LEAVE frame. -/

/-- Whole-system state: server state, each session's current room, and
the accumulated message and facade-call logs. -/
structure Sys where
  server : ServerState
  curs : List (String × Option String)
  sent : List (String × SMsg)
  log : List FCall
deriving DecidableEq, Repr

/-- The session's `currentRoomId` (`null` before any join). -/
def curOf (sys : Sys) (pid : String) : Option String :=
  (lookupA pid sys.curs).getD none

/-- Trace events: an inbound frame on a session, or the session's close. -/
inductive Ev where
  | msg (pid : String) (m : CMsg)
  | close (pid : String)
deriving DecidableEq, Repr

/-- The session an event belongs to. -/
def Ev.pid : Ev → String
  | .msg p _ => p
  | .close p => p

/-- Fold one handler result into the system state. -/
def applyH (sys : Sys) (pid : String) (r : HRes) : Sys :=
  { server := r.state,
    curs := setA pid r.cur sys.curs,
    sent := sys.sent ++ r.sends,
    log := sys.log ++ r.calls }

/-- One step of the system. -/
def stepEv (sys : Sys) : Ev → Sys
  | .msg p c => applyH sys p (handleMessage sys.server (curOf sys p) p c)
  | .close p => applyH sys p (handleLeave sys.server (curOf sys p) p)

/-- Run a trace. -/
def run (sys : Sys) (evs : List Ev) : Sys :=
  evs.foldl stepEv sys

/-- Initial state: empty facade, the default room registered, no sessions
joined. -/
def sys0 : Sys :=
  ⟨⟨[("default-room", [])], ⟨[], [], [], 0⟩⟩, [], [], []⟩

/-- Close events for every session that appears in a trace ("after every
session has ended"). -/
def closesOf (evs : List Ev) : List Ev :=
  evs.map (fun e => Ev.close e.pid)

theorem run_append (sys : Sys) (l₁ l₂ : List Ev) :
    run sys (l₁ ++ l₂) = run (run sys l₁) l₂ := by
  simp [run, List.foldl_append]

theorem curOf_applyH_self (sys : Sys) (pid : String) (r : HRes) :
    curOf (applyH sys pid r) pid = r.cur := by
  simp [curOf, applyH, lookupA_setA_self]

theorem curOf_applyH_ne (sys : Sys) {pid q : String} (r : HRes)
    (h : q ≠ pid) : curOf (applyH sys pid r) q = curOf sys q := by
  simp [curOf, applyH, lookupA_setA_ne _ _ h]

theorem stepEv_log_append (sys : Sys) (e : Ev) :
    ∃ l, (stepEv sys e).log = sys.log ++ l := by
  cases e with
  | msg p c => exact ⟨_, rfl⟩
  | close p => exact ⟨_, rfl⟩

theorem log_mono_stepEv {sys : Sys} {e : Ev} {c : FCall} (h : c ∈ sys.log) :
    c ∈ (stepEv sys e).log := by
  obtain ⟨l, hl⟩ := stepEv_log_append sys e
  rw [hl]
  exact List.mem_append_left _ h

theorem log_mono_run {sys : Sys} {evs : List Ev} {c : FCall} (h : c ∈ sys.log) :
    c ∈ (run sys evs).log := by
  induction evs generalizing sys with
  | nil => exact h
  | cons e rest ih => exact ih (log_mono_stepEv h)

/-! ## Claim C1 -/

/-- Counterexample to claim C1.  The claim says no media-plane request
succeeds until the session has completed both JOINs.  In the code, a
session that has completed only the first JOIN (no capabilities, hence no
second JOIN ever happened) gets its `produce` request served: the facade
is invoked, a producer is created, `produce-response` (and no error) is
sent, and the transport can likewise be connected. -/
theorem c1_counterexample :
    (run sys0 [Ev.msg "a" (CMsg.join none false), Ev.msg "a" (CMsg.produce 0)]).sent
        = [("a", SMsg.welcome 0), ("a", SMsg.produceResponse 1)] ∧
    (run sys0 [Ev.msg "a" (CMsg.join none false), Ev.msg "a" (CMsg.produce 0)]).log
        = [FCall.createTransport "a", FCall.produceCall 0] ∧
    (run sys0 [Ev.msg "a" (CMsg.join none false),
        Ev.msg "a" (CMsg.produce 0)]).server.facade.producers = [1] ∧
    (run sys0 [Ev.msg "a" (CMsg.join none false)]).server.facade.connectTransportOk 0
        = true := by
  decide

/-- Claim C1, amended.  `produce` and `request-consume` are rejected with
`Not in a room` and no facade call exactly when the session has not
completed a *first* JOIN (its `currentRoom` is null); once the first JOIN
is done they proceed to the facade regardless of the second JOIN.
`connect-transport` is never gated on the session's join state: it is
always passed through to the facade. -/
theorem c1_media_gated_on_first_join_only (s : ServerState) (pid : String)
    (tid producerId : Nat) (capsOk : Bool) (mpid : Option String) :
    (handleMessage s none pid (CMsg.produce tid)
        = ⟨s, none, [(pid, SMsg.errorMsg "Not in a room")], []⟩) ∧
    (handleMessage s none pid (CMsg.requestConsume producerId capsOk mpid)
        = ⟨s, none, [(pid, SMsg.errorMsg "Not in a room")], []⟩) ∧
    (∀ cur, (handleMessage s cur pid (CMsg.connectTransport tid)).calls
        = [FCall.connectTransport tid]) ∧
    (∀ rid, (handleMessage s (some rid) pid (CMsg.produce tid)).calls
        = [FCall.produceCall tid]) ∧
    (∀ rid, (handleMessage s (some rid) pid
        (CMsg.requestConsume producerId capsOk mpid)).calls
        = [FCall.createConsumerTransport pid, FCall.consumeCall pid producerId]) := by
  refine ⟨rfl, rfl, ?_, ?_, ?_⟩
  · intro cur
    by_cases h : s.facade.connectTransportOk tid <;> simp [handleMessage, h]
  · intro rid
    cases hp : s.facade.produce tid <;> simp [handleMessage, handleProduce, hp]
  · intro rid
    cases hc : (s.facade.createConsumerTransport pid).1.consume pid producerId capsOk <;>
      simp [handleMessage, handleConsume, hc]

/-! ## Claim C5 -/

/-- Claim C5.  The facade's `createConsumerTransport` is idempotent in the
participant id: a second call returns the same transport and leaves the
facade unchanged, and after any call the participant's single
`recvTransport` slot holds exactly the returned transport — so any number
of `request-consume` requests yield at most one receive transport per
participant on the SFU side. -/
theorem c5_recv_transport_idempotent (f : FacadeState) (pid : String) :
    (f.createConsumerTransport pid).1.createConsumerTransport pid
        = f.createConsumerTransport pid ∧
    ∃ d, lookupA pid (f.createConsumerTransport pid).1.participantTransports
          = some d ∧
        d.recvTransport = some (f.createConsumerTransport pid).2 := by
  unfold FacadeState.createConsumerTransport
  cases hl : lookupA pid f.participantTransports with
  | none =>
    simp only [hl, lookupA_setA_self]
    exact ⟨trivial, _, rfl, rfl⟩
  | some data =>
    cases hr : data.recvTransport with
    | none =>
      simp only [hl, hr, lookupA_setA_self]
      exact ⟨trivial, _, rfl, rfl⟩
    | some t =>
      simp only [hl, hr]
      exact ⟨trivial, data, rfl, hr⟩

/-! ## Claim C9 -/

/-- Counterexample to claim C9.  The claim says a frame with an unknown
`type` elicits exactly one error response frame.  In the code the
`default` branch of the dispatch only logs a warning: no frame at all is
sent, and no state changes. -/
theorem c9_counterexample :
    (run sys0 [Ev.msg "a" (CMsg.unknown "bogus")]).sent = [] ∧
    (run sys0 [Ev.msg "a" (CMsg.unknown "bogus")]).log = [] ∧
    (run sys0 [Ev.msg "a" (CMsg.unknown "bogus")]).server = sys0.server := by
  decide

/-- Claim C9, amended.  A malformed (unparseable) frame elicits exactly
one error frame to the sender and nothing else; a frame with an unknown
`type` elicits no response at all.  In both cases the session stays open
(the handler returns normally, leaving the session's room binding as it
was) and neither room nor facade state changes. -/
theorem c9_bad_frames_harmless (s : ServerState) (cur : Option String)
    (pid : String) (ty : String) :
    handleMessage s cur pid CMsg.malformed
        = ⟨s, cur, [(pid, SMsg.errorMsg "Failed to process request")], []⟩ ∧
    handleMessage s cur pid (CMsg.unknown ty) = ⟨s, cur, [], []⟩ :=
  ⟨rfl, rfl⟩

/-! ## Claim C10 -/

/-- Claim C10.  Leave cleanup runs at most once per session: `handleLeave`
always leaves `currentRoom`/`currentRoomId` null, and `handleLeave` on a
session whose current room is already null changes nothing, sends
nothing, and calls no facade operation — so a second LEAVE or the close
event after a LEAVE performs no facade calls, no room mutation, and no
fan-out, and the disconnect (and producer-closed) fan-outs happen at most
once per session. -/
theorem c10_leave_runs_once (s : ServerState) (cur : Option String)
    (pid : String) :
    (handleLeave s cur pid).cur = none ∧
    handleLeave s none pid = ⟨s, none, [], []⟩ ∧
    handleLeave (handleLeave s cur pid).state (handleLeave s cur pid).cur pid
        = ⟨(handleLeave s cur pid).state, none, [], []⟩ ∧
    (∀ sys : Sys, ∀ p,
      (stepEv (stepEv sys (Ev.close p)) (Ev.close p)).server
          = (stepEv sys (Ev.close p)).server ∧
      (stepEv (stepEv sys (Ev.close p)) (Ev.close p)).sent
          = (stepEv sys (Ev.close p)).sent ∧
      (stepEv (stepEv sys (Ev.close p)) (Ev.close p)).log
          = (stepEv sys (Ev.close p)).log) := by
  have hcur : ∀ (s' : ServerState) (cur' : Option String) (pid' : String),
      (handleLeave s' cur' pid').cur = none := by
    intro s' cur' pid'
    cases cur' with
    | none => rfl
    | some rid =>
      simp only [handleLeave]
      cases lookupA pid' ((lookupA rid s'.rooms).getD []) <;> rfl
  refine ⟨hcur s cur pid, rfl, ?_, ?_⟩
  · rw [hcur s cur pid]
    rfl
  · intro sys p
    have h1 : curOf (stepEv sys (Ev.close p)) p = none := by
      simp only [stepEv]
      rw [curOf_applyH_self, hcur]
    revert h1
    generalize stepEv sys (Ev.close p) = sys'
    intro h1
    simp only [stepEv, h1, handleLeave, applyH]
    exact ⟨trivial, by simp, by simp⟩

/-! ## Counting fan-out messages -/

/-- Number of occurrences of `a` in `l`. -/
def countOcc [DecidableEq α] (a : α) (l : List α) : Nat :=
  (l.filter (fun x => x = a)).length

theorem countOcc_nil [DecidableEq α] (a : α) : countOcc a [] = 0 := rfl

theorem countOcc_append [DecidableEq α] (a : α) (l₁ l₂ : List α) :
    countOcc a (l₁ ++ l₂) = countOcc a l₁ + countOcc a l₂ := by
  simp [countOcc, List.filter_append]

theorem countOcc_eq_zero [DecidableEq α] {a : α} {l : List α} :
    countOcc a l = 0 ↔ a ∉ l := by
  simp [countOcc, List.length_eq_zero, List.filter_eq_nil_iff]
  constructor
  · intro h hmem
    exact h a hmem rfl
  · intro h x hx hxa
    exact h (hxa ▸ hx)

theorem countOcc_singleton_self [DecidableEq α] (a : α) :
    countOcc a [a] = 1 := by
  simp [countOcc]

theorem countOcc_cons [DecidableEq α] (a b : α) (l : List α) :
    countOcc a (b :: l) = (if b = a then 1 else 0) + countOcc a l := by
  by_cases h : b = a
  · simp [countOcc, h]
    omega
  · simp [countOcc, h]

/-- If every list an entry contributes is tagged with that entry's key,
then the number of copies of a message tagged `q` in the concatenation is
read off from the unique entry with key `q`. -/
theorem countOcc_flatMap_lookup [DecidableEq κ] [DecidableEq μ]
    (l : List (κ × α)) (f : κ × α → List μ) (m : μ) (q : κ)
    (hnd : (l.map Prod.fst).Nodup) (hq : ∀ e, m ∈ f e → e.1 = q) :
    countOcc m (l.flatMap f)
      = match lookupA q l with
        | some a => countOcc m (f (q, a))
        | none => 0 := by
  induction l with
  | nil => simp [lookupA, countOcc_nil]
  | cons hd tl ih =>
    obtain ⟨k, a⟩ := hd
    simp only [List.map_cons, List.nodup_cons] at hnd
    have htl := ih hnd.2
    rw [List.flatMap_cons, countOcc_append]
    by_cases hk : k = q
    · subst hk
      have h0 : countOcc m (tl.flatMap f) = 0 := by
        rw [countOcc_eq_zero]
        intro hmem
        obtain ⟨e, he, hme⟩ := List.mem_flatMap.1 hmem
        refine hnd.1 ?_
        rw [← hq e hme]
        exact List.mem_map_of_mem Prod.fst he
      rw [h0]
      simp [lookupA]
    · have h0 : countOcc m (f (k, a)) = 0 := by
        rw [countOcc_eq_zero]
        intro hmem
        exact hk (hq (k, a) hmem)
      rw [h0, htl]
      simp [lookupA, hk]

theorem notifyParticipants_count (R : Room) (sender : String) (m : SMsg)
    (q : String) (hnd : (R.map Prod.fst).Nodup) :
    countOcc (q, m) (notifyParticipants R sender m)
      = if q ≠ sender ∧ (lookupA q R).isSome then 1 else 0 := by
  have hq : ∀ e : String × PartRec,
      (q, m) ∈ (if e.1 ≠ sender then [(e.1, m)] else []) → e.1 = q := by
    intro e he
    by_cases hs : e.1 = sender <;> simp [hs] at he
    exact he.symm
  have h := countOcc_flatMap_lookup R
    (fun qe => if qe.1 ≠ sender then [(qe.1, m)] else []) (q, m) q hnd hq
  unfold notifyParticipants
  rw [h]
  cases hl : lookupA q R with
  | none => simp
  | some a =>
    by_cases hs : q = sender <;> simp [hs, countOcc_singleton_self, countOcc_nil]

theorem notifyParticipants_count_ne (R : Room) (sender : String) {m m' : SMsg}
    (q' : String) (h : m' ≠ m) :
    countOcc (q', m') (notifyParticipants R sender m) = 0 := by
  rw [countOcc_eq_zero]
  intro hmem
  obtain ⟨e, _, hme⟩ := List.mem_flatMap.1 hmem
  by_cases hs : e.1 = sender <;> simp [hs] at hme
  exact h hme.2

theorem mem_notifyParticipants (R : Room) (sender : String) (m : SMsg)
    {x : String × SMsg} (hx : x ∈ notifyParticipants R sender m) :
    x.1 ≠ sender ∧ x.2 = m := by
  obtain ⟨e, _, hme⟩ := List.mem_flatMap.1 hx
  by_cases hs : e.1 = sender <;> simp [hs] at hme
  obtain ⟨x1, x2⟩ := x
  simp only [Prod.mk.injEq] at hme
  obtain ⟨h1, h2⟩ := hme
  refine ⟨?_, h2⟩
  simpa [← h1] using hs

/-! ## Claim C2 -/

/-- The per-entry notification list of the second-JOIN handler. -/
def joinNotify (pid : String) (qe : String × PartRec) : List (String × SMsg) :=
  if qe.1 ≠ pid then
    match qe.2.producerId with
    | some p =>
      (pid, SMsg.newProducer p qe.1) ::
        (if qe.2.isKilled then [(pid, SMsg.participantKilled qe.1 true)] else [])
    | none => []
  else []

theorem handleJoin_second_sends (s : ServerState) (cur : Option String)
    (pid : String) (roomId : Option String) (R : Room) (prec : PartRec)
    (hR : lookupA (normRoom roomId) s.rooms = some R)
    (hmem : lookupA pid R = some prec) :
    (handleJoin s cur pid roomId true).sends
      = (setA pid { prec with rtpCapabilities := true } R).flatMap
          (joinNotify pid) := by
  simp only [handleJoin, hR, Option.isSome_some, if_true, Option.getD_some, hmem]
  rfl

theorem mem_joinNotify_fst {pid : String} {qe : String × PartRec}
    {x : String × SMsg} (hx : x ∈ joinNotify pid qe) : x.1 = pid := by
  unfold joinNotify at hx
  by_cases h : qe.1 = pid
  · simp [h] at hx
  · simp only [h, ne_eq, not_false_iff, if_true] at hx
    cases hp : qe.2.producerId with
    | none => simp [hp] at hx
    | some p =>
      rw [hp] at hx
      rcases List.mem_cons.1 hx with h1 | h1
      · rw [h1]
      · by_cases hk : qe.2.isKilled <;> simp [hk] at h1
        rw [h1]

theorem joinNotify_newProducer_key {pid : String} {qe : String × PartRec}
    {P : Nat} {q : String}
    (hx : (pid, SMsg.newProducer P q) ∈ joinNotify pid qe) : qe.1 = q := by
  unfold joinNotify at hx
  by_cases h : qe.1 = pid
  · simp [h] at hx
  · simp only [h, ne_eq, not_false_iff, if_true] at hx
    cases hp : qe.2.producerId with
    | none => simp [hp] at hx
    | some p =>
      rw [hp] at hx
      rcases List.mem_cons.1 hx with h1 | h1
      · simp only [Prod.mk.injEq, SMsg.newProducer.injEq] at h1
        exact h1.2.2.symm
      · by_cases hk : qe.2.isKilled <;> simp [hk] at h1

theorem joinNotify_killed_key {pid : String} {qe : String × PartRec}
    {q : String}
    (hx : (pid, SMsg.participantKilled q true) ∈ joinNotify pid qe) :
    qe.1 = q := by
  unfold joinNotify at hx
  by_cases h : qe.1 = pid
  · simp [h] at hx
  · simp only [h, ne_eq, not_false_iff, if_true] at hx
    cases hp : qe.2.producerId with
    | none => simp [hp] at hx
    | some p =>
      rw [hp] at hx
      rcases List.mem_cons.1 hx with h1 | h1
      · simp at h1
      · by_cases hk : qe.2.isKilled <;> simp [hk] at h1
        exact h1.symm

theorem joinNotify_eval (pid q : String) (rec : PartRec) (h : q ≠ pid) :
    joinNotify pid (q, rec)
      = match rec.producerId with
        | some p =>
          (pid, SMsg.newProducer p q) ::
            (if rec.isKilled then [(pid, SMsg.participantKilled q true)] else [])
        | none => [] := by
  simp [joinNotify, h]

/-- Claim C2.  When a participant's second JOIN (capabilities present) is
processed, the joiner — and nobody else — is sent exactly one
`new-producer {producerId, participantId}` for each other participant of
the room whose record holds that producer id, exactly one
`participant-killed {participantId, killed: true}` for each such
participant whose `isKilled` flag is set, and no `new-producer` for
itself, for producer-less participants, or for non-members; no facade
call is made. -/
theorem c2_second_join_notifies_existing_producers
    (s : ServerState) (cur : Option String) (pid : String)
    (roomId : Option String) (R : Room) (prec : PartRec)
    (hR : lookupA (normRoom roomId) s.rooms = some R)
    (hmem : lookupA pid R = some prec)
    (hnd : (R.map Prod.fst).Nodup) :
    (∀ x ∈ (handleJoin s cur pid roomId true).sends, x.1 = pid) ∧
    (∀ q rec, q ≠ pid → lookupA q R = some rec →
      (∀ P, countOcc (pid, SMsg.newProducer P q)
            (handleJoin s cur pid roomId true).sends
          = if rec.producerId = some P then 1 else 0) ∧
      countOcc (pid, SMsg.participantKilled q true)
            (handleJoin s cur pid roomId true).sends
          = if rec.producerId.isSome ∧ rec.isKilled then 1 else 0) ∧
    (∀ P, countOcc (pid, SMsg.newProducer P pid)
        (handleJoin s cur pid roomId true).sends = 0) ∧
    (∀ q P, lookupA q R = none →
      countOcc (pid, SMsg.newProducer P q)
        (handleJoin s cur pid roomId true).sends = 0) ∧
    (handleJoin s cur pid roomId true).calls = [] := by
  have hsends := handleJoin_second_sends s cur pid roomId R prec hR hmem
  have hcalls : (handleJoin s cur pid roomId true).calls = [] := by
    simp only [handleJoin, hR, Option.isSome_some, if_true, Option.getD_some, hmem]
  rw [hsends]
  set R' := setA pid { prec with rtpCapabilities := true } R with hR'
  have hndR' : (R'.map Prod.fst).Nodup := nodup_keys_setA _ _ _ hnd
  refine ⟨?_, ?_, ?_, ?_, hcalls⟩
  · intro x hx
    obtain ⟨e, _, hme⟩ := List.mem_flatMap.1 hx
    exact mem_joinNotify_fst hme
  · intro q rec hq hlook
    have hlook' : lookupA q R' = some rec := by
      rw [hR', lookupA_setA_ne _ _ hq, hlook]
    constructor
    · intro P
      rw [countOcc_flatMap_lookup R' (joinNotify pid) _ q hndR'
        (fun e he => joinNotify_newProducer_key he)]
      rw [hlook']
      dsimp only
      rw [joinNotify_eval pid q rec hq]
      cases hp : rec.producerId with
      | none => simp [countOcc_nil]
      | some p =>
        have htail : countOcc (pid, SMsg.newProducer P q)
            (if rec.isKilled then [(pid, SMsg.participantKilled q true)] else [])
            = 0 := by
          by_cases hk : rec.isKilled <;> simp [hk, countOcc_nil, countOcc_eq_zero]
        rw [countOcc_cons, htail]
        by_cases hpP : p = P <;> simp [hpP]
    · rw [countOcc_flatMap_lookup R' (joinNotify pid) _ q hndR'
        (fun e he => joinNotify_killed_key he)]
      rw [hlook']
      dsimp only
      rw [joinNotify_eval pid q rec hq]
      cases hp : rec.producerId with
      | none => simp [countOcc_nil, hp]
      | some p =>
        by_cases hk : rec.isKilled <;>
          simp [hk, hp, countOcc_cons, countOcc_nil, countOcc_singleton_self]
  · intro P
    rw [countOcc_flatMap_lookup R' (joinNotify pid) _ pid hndR'
      (fun e he => joinNotify_newProducer_key he)]
    rw [hR', lookupA_setA_self]
    dsimp only
    simp [joinNotify, countOcc_nil]
  · intro q P hlook
    have hq : q ≠ pid := by
      rintro rfl
      rw [hmem] at hlook
      exact Option.noConfusion hlook
    rw [countOcc_flatMap_lookup R' (joinNotify pid) _ q hndR'
      (fun e he => joinNotify_newProducer_key he)]
    rw [hR', lookupA_setA_ne _ _ hq, hlook]

/-! ## Claim C7 -/

theorem handleLeave_eq (s : ServerState) (rid pid : String) (R : Room)
    (rec : PartRec) (hR : lookupA rid s.rooms = some R)
    (hmem : lookupA pid R = some rec) :
    handleLeave s (some rid) pid
      = ⟨{ s with
            rooms := setA rid (eraseA pid R) s.rooms,
            facade :=
              (match rec.producerId with
                | some p => s.facade.closeProducer p
                | none => s.facade).removeParticipant pid }, none,
          (match rec.producerId with
            | some p => notifyParticipants R pid (SMsg.producerClosed p pid)
            | none => []) ++
            notifyParticipants (eraseA pid R) pid (SMsg.disconnected pid),
          (match rec.producerId with
            | some p => [FCall.closeProducer p]
            | none => []) ++ [FCall.removeParticipant pid]⟩ := by
  simp only [handleLeave, hR, Option.getD_some, hmem]
  cases rec.producerId <;> rfl

/-- Claim C7.  For a participant that is in a room (its session's current
room holds its record), a LEAVE message — and the session close event,
which runs the identical handler — performs exactly this cleanup: if the
record holds a producer id, `facade.closeProducer` is called on it and
`producer-closed {producerId, participantId}` goes to each other room
member exactly once; the participant is removed from the room's map;
`disconnect {participantId}` goes to each remaining member exactly once;
`facade.removeParticipant` is called; nothing is sent to the leaver, and
the session's current room is cleared. -/
theorem c7_leave_cleanup (s : ServerState) (rid pid : String) (R : Room)
    (rec : PartRec) (hR : lookupA rid s.rooms = some R)
    (hmem : lookupA pid R = some rec)
    (hnd : (R.map Prod.fst).Nodup) :
    ((handleLeave s (some rid) pid).calls
        = (match rec.producerId with
            | some p => [FCall.closeProducer p]
            | none => []) ++ [FCall.removeParticipant pid]) ∧
    (handleLeave s (some rid) pid).cur = none ∧
    lookupA pid
        ((lookupA rid (handleLeave s (some rid) pid).state.rooms).getD [])
      = none ∧
    (∀ x ∈ (handleLeave s (some rid) pid).sends, x.1 ≠ pid) ∧
    (∀ q, q ≠ pid → (lookupA q R).isSome →
      (∀ p, rec.producerId = some p →
        countOcc (q, SMsg.producerClosed p pid)
          (handleLeave s (some rid) pid).sends = 1) ∧
      countOcc (q, SMsg.disconnected pid)
        (handleLeave s (some rid) pid).sends = 1) ∧
    (∀ (sys : Sys) (p : String),
      stepEv sys (Ev.close p) = stepEv sys (Ev.msg p CMsg.leave)) := by
  have heq := handleLeave_eq s rid pid R rec hR hmem
  rw [heq]
  dsimp only
  have hndE : ((eraseA pid R).map Prod.fst).Nodup := nodup_keys_eraseA _ _ hnd
  refine ⟨rfl, rfl, ?_, ?_, ?_, fun sys p => rfl⟩
  · rw [lookupA_setA_self, Option.getD_some, lookupA_eraseA_self _ _ hnd]
  · intro x hx
    rcases List.mem_append.1 hx with h1 | h1
    · cases hp : rec.producerId with
      | none => rw [hp] at h1; simp at h1
      | some p =>
        rw [hp] at h1
        exact (mem_notifyParticipants _ _ _ h1).1
    · exact (mem_notifyParticipants _ _ _ h1).1
  · intro q hq hqR
    constructor
    · intro p hp
      rw [hp, countOcc_append]
      rw [notifyParticipants_count _ _ _ _ hnd,
        notifyParticipants_count_ne _ _ _ (by simp)]
      simp [hq, hqR]
    · rw [countOcc_append]
      have h2 : countOcc (q, SMsg.disconnected pid)
          (match rec.producerId with
            | some p => notifyParticipants R pid (SMsg.producerClosed p pid)
            | none => []) = 0 := by
        cases hp : rec.producerId with
        | none => rfl
        | some p => exact notifyParticipants_count_ne _ _ _ (by simp)
      rw [h2, notifyParticipants_count _ _ _ _ hndE]
      have hqE : (lookupA q (eraseA pid R)).isSome := by
        rw [lookupA_eraseA_ne _ hq]
        exact hqR
      simp [hq, hqE]

/-! ## Claim C6 -/

theorem createConsumerTransport_recv (f : FacadeState) (pid : String) :
    ∃ d, lookupA pid (f.createConsumerTransport pid).1.participantTransports
          = some d ∧
        d.recvTransport = some (f.createConsumerTransport pid).2 := by
  unfold FacadeState.createConsumerTransport
  cases hl : lookupA pid f.participantTransports with
  | none =>
    simp only [hl, lookupA_setA_self]
    exact ⟨_, rfl, rfl⟩
  | some data =>
    cases hr : data.recvTransport with
    | none =>
      simp only [hl, hr, lookupA_setA_self]
      exact ⟨_, rfl, rfl⟩
    | some t =>
      simp only [hl, hr]
      exact ⟨data, rfl, hr⟩

/-- Claim C6.  A `request-consume` whose facade `consume` call fails sends
the requester both the error frame and a
`producer-closed {producerId, participantId}` for the requested producer
(every `consume` failure message matches the handler's gone-producer
test); a successful `consume` sends exactly the `consume-response`
carrying the consumer id, the producer id, the receive transport's
options and the echoed source participant id — and no error or
`producer-closed`.  The `cannotConsume` failure is precisely the case
where the producer is gone from the router or the capabilities do not
match. -/
theorem c6_consume_failure_and_success (s : ServerState) (rid pid : String)
    (producerId : Nat) (capsOk : Bool) (mpid : Option String) :
    (∀ e, (s.facade.createConsumerTransport pid).1.consume pid producerId capsOk
          = .error e →
      (handleConsume s (some rid) pid producerId capsOk mpid).sends
        = [(pid, SMsg.errorMsg ("Failed to create consumer: "
              ++ consumeErrMessage e pid producerId)),
           (pid, SMsg.producerClosed producerId (mpid.getD "unknown"))]) ∧
    (∀ fc, (s.facade.createConsumerTransport pid).1.consume pid producerId capsOk
          = .ok fc →
      (handleConsume s (some rid) pid producerId capsOk mpid).sends
        = [(pid, SMsg.consumeResponse fc.2 producerId
              (s.facade.createConsumerTransport pid).2 (mpid.getD "unknown"))]) ∧
    ((s.facade.createConsumerTransport pid).1.consume pid producerId capsOk
          = .error .cannotConsume
      ↔ ¬(producerId ∈ (s.facade.createConsumerTransport pid).1.producers
            ∧ capsOk = true)) := by
  refine ⟨?_, ?_, ?_⟩
  · intro e he
    simp only [handleConsume, he, mentionsGoneProducer_consumeErrMessage,
      if_true]
  · intro fc hc
    simp only [handleConsume, hc]
  · obtain ⟨d, hd, hrecv⟩ := createConsumerTransport_recv s.facade pid
    unfold FacadeState.consume
    rw [hd]
    dsimp only
    rw [hrecv]
    dsimp only
    by_cases h : producerId ∈ (s.facade.createConsumerTransport pid).1.producers
        ∧ capsOk = true
    · simp [h]
    · simp [h]

/-! ## Claim C8 -/

theorem lookupA_append [DecidableEq α] (k : α) (l₁ l₂ : List (α × β)) :
    lookupA k (l₁ ++ l₂)
      = match lookupA k l₁ with
        | some v => some v
        | none => lookupA k l₂ := by
  induction l₁ with
  | nil => simp [lookupA]
  | cons hd tl ih =>
    by_cases h : hd.1 = k <;> simp [lookupA, h, ih]

/-- Counterexample to claim C8.  The claim says a capability-less JOIN
from an Active session, or a JOIN with capabilities before a welcome, is
a protocol error with no second welcome and no transport re-creation.  In
the code both take the first-JOIN path: after a completed two-phase join,
a third JOIN without capabilities produces a second `welcome`, a second
`createSendTransport` facade call and no error; and a JOIN with
capabilities as the very first frame produces a `welcome`, not an
error. -/
theorem c8_counterexample :
    (run sys0 [Ev.msg "a" (CMsg.join none false), Ev.msg "a" (CMsg.join none true),
        Ev.msg "a" (CMsg.join none false)]).sent
      = [("a", SMsg.welcome 0), ("a", SMsg.welcome 1)] ∧
    (run sys0 [Ev.msg "a" (CMsg.join none false), Ev.msg "a" (CMsg.join none true),
        Ev.msg "a" (CMsg.join none false)]).log
      = [FCall.createTransport "a", FCall.createTransport "a"] ∧
    (run sys0 [Ev.msg "a" (CMsg.join none true)]).sent
      = [("a", SMsg.welcome 0)] := by
  decide

/-- Claim C8, amended.  A JOIN that is not a second-phase JOIN of a
participant already in the named room — in particular a capability-less
JOIN from an Active session, and a JOIN with capabilities arriving before
any first JOIN — is processed as a fresh first JOIN rather than as a
protocol error: the participant's record in the room is reset, a new send
transport is created through the facade, another `welcome` is sent, and
no error frame is produced. -/
theorem c8_rejoin_acts_as_first_join (s : ServerState) (cur : Option String)
    (pid : String) (roomId : Option String) (hasCaps : Bool)
    (hcond : hasCaps = false
      ∨ lookupA pid ((lookupA (normRoom roomId) s.rooms).getD []) = none) :
    (handleJoin s cur pid roomId hasCaps).sends
        = [(pid, SMsg.welcome (s.facade.createTransport pid).2)] ∧
    (handleJoin s cur pid roomId hasCaps).calls = [FCall.createTransport pid] ∧
    (handleJoin s cur pid roomId hasCaps).cur = some (normRoom roomId) ∧
    lookupA pid
        ((lookupA (normRoom roomId)
          (handleJoin s cur pid roomId hasCaps).state.rooms).getD [])
      = some ⟨none, false, false⟩ := by
  unfold handleJoin
  by_cases hex : (lookupA (normRoom roomId) s.rooms).isSome
  · obtain ⟨R, hR⟩ := Option.isSome_iff_exists.1 hex
    simp only [hR, Option.isSome_some, if_true, Option.getD_some]
    have hfall : hasCaps = false ∨ lookupA pid R = none := by
      rcases hcond with h | h
      · exact Or.inl h
      · right
        rw [hR] at h
        exact h
    rcases hfall with h | h
    · subst h
      refine ⟨rfl, rfl, rfl, ?_⟩
      rw [lookupA_setA_self, Option.getD_some, lookupA_setA_self]
    · cases hasCaps with
      | false =>
        refine ⟨rfl, rfl, rfl, ?_⟩
        rw [lookupA_setA_self, Option.getD_some, lookupA_setA_self]
      | true =>
        rw [h]
        refine ⟨rfl, rfl, rfl, ?_⟩
        rw [lookupA_setA_self, Option.getD_some, lookupA_setA_self]
  · rw [Bool.not_eq_true] at hex
    have hnone : lookupA (normRoom roomId) s.rooms = none :=
      Option.not_isSome_iff_eq_none.1 (by simp [hex])
    simp only [hnone, Option.isSome_none, Bool.false_eq_true, if_false]
    have hR1 : lookupA (normRoom roomId) (s.rooms ++ [(normRoom roomId, [])])
        = some [] := by
      rw [lookupA_append, hnone, lookupA]
      simp
    simp only [hR1, Option.getD_some]
    have hnil : lookupA pid ([] : Room) = none := rfl
    cases hasCaps with
    | false =>
      refine ⟨rfl, rfl, rfl, ?_⟩
      rw [lookupA_setA_self, Option.getD_some, lookupA_setA_self]
    | true =>
      rw [hnil]
      refine ⟨rfl, rfl, rfl, ?_⟩
      rw [lookupA_setA_self, Option.getD_some, lookupA_setA_self]

/-! ## Room-membership invariant (claims C3 and C4)

The protocol discipline the spec prescribes — a participant that needs a
different room must LEAVE then JOIN, and the second JOIN repeats the
first JOIN's room — is expressed as a guard on traces: a JOIN from a
session that is currently in a room is only well formed when it carries
capabilities and names that same room.  (`routes.ts` does not enforce
this; claim C4's counterexample shows the invariant fails without it.) -/

/-- A JOIN is protocol-disciplined: either the session is roomless, or the
JOIN is the capability-bearing second JOIN for the session's current
room. -/
def allowedJoin (sys : Sys) (p : String) (roomId : Option String)
    (caps : Bool) : Bool :=
  match curOf sys p with
  | none => true
  | some r => caps && (normRoom roomId == r)

/-- Join-discipline guard on events. -/
def allowedJ (sys : Sys) : Ev → Bool
  | .msg p (.join roomId caps) => allowedJoin sys p roomId caps
  | _ => true

/-- A trace is well formed for a guard when every event is allowed in the
state it executes in. -/
def WFrun (allowed : Sys → Ev → Bool) : Sys → List Ev → Bool
  | _, [] => true
  | sys, ev :: rest => allowed sys ev && WFrun allowed (stepEv sys ev) rest

/-- Room/membership/current-room coherence. -/
structure RoomsOk (rooms : List (String × Room))
    (curs : List (String × Option String)) : Prop where
  ndR : (rooms.map Prod.fst).Nodup
  ndM : ∀ r R, lookupA r rooms = some R → (R.map Prod.fst).Nodup
  memCur : ∀ q r R, lookupA r rooms = some R → (lookupA q R).isSome →
    (lookupA q curs).getD none = some r
  curMem : ∀ q r, (lookupA q curs).getD none = some r →
    ∃ R, lookupA r rooms = some R ∧ (lookupA q R).isSome

/-- The room invariant, on whole system states. -/
def RoomsInv (sys : Sys) : Prop :=
  RoomsOk sys.server.rooms sys.curs

theorem roomsOk_curs_same {rooms : List (String × Room)}
    {curs curs' : List (String × Option String)} (h : RoomsOk rooms curs)
    (hsame : ∀ q, (lookupA q curs').getD none = (lookupA q curs).getD none) :
    RoomsOk rooms curs' where
  ndR := h.ndR
  ndM := h.ndM
  memCur q r R hR hq := by rw [hsame]; exact h.memCur q r R hR hq
  curMem q r hq := h.curMem q r (by rw [← hsame]; exact hq)

theorem roomsOk_getOrCreate {rooms : List (String × Room)}
    {curs : List (String × Option String)} (h : RoomsOk rooms curs)
    (rid : String) :
    RoomsOk (if (lookupA rid rooms).isSome then rooms
      else rooms ++ [(rid, [])]) curs := by
  by_cases hex : (lookupA rid rooms).isSome
  · simpa [hex] using h
  · have hnm : rid ∉ rooms.map Prod.fst := fun hm => hex (lookupA_isSome_of_mem_keys hm)
    have hlook : ∀ r, lookupA r (rooms ++ [(rid, [])])
        = match lookupA r rooms with
          | some R => some R
          | none => if rid = r then some [] else none := by
      intro r
      rw [lookupA_append]
      cases lookupA r rooms <;> simp [lookupA]
    have hnone : lookupA rid rooms = none := Option.not_isSome_iff_eq_none.1 hex
    have hsimp : (if (lookupA rid rooms).isSome then rooms
        else rooms ++ [(rid, [])]) = rooms ++ [(rid, [])] := by
      simp [hnone]
    rw [hsimp]
    refine ⟨?_, ?_, ?_, ?_⟩
    · simpa using List.Nodup.append h.ndR (List.nodup_singleton rid)
        (by simpa [List.disjoint_singleton] using hnm)
    · intro r R hR
      rw [hlook] at hR
      cases hold : lookupA r rooms with
      | some R₀ =>
        rw [hold] at hR
        exact h.ndM r R (by rw [hold, ← hR])
      | none =>
        rw [hold] at hR
        by_cases hr : rid = r
        · simp only [hr, if_pos rfl] at hR
          cases hR
          simp
        · simp [hr] at hR
    · intro q r R hR hq
      rw [hlook] at hR
      cases hold : lookupA r rooms with
      | some R₀ =>
        rw [hold] at hR
        cases hR
        exact h.memCur q r R hold hq
      | none =>
        rw [hold] at hR
        by_cases hr : rid = r
        · simp only [hr, if_pos rfl] at hR
          cases hR
          simp [lookupA] at hq
        · simp [hr] at hR
    · intro q r hq
      obtain ⟨R, hR, hmem⟩ := h.curMem q r hq
      refine ⟨R, ?_, hmem⟩
      rw [hlook, hR]

theorem roomsOk_setMember {rooms : List (String × Room)}
    {curs : List (String × Option String)} (h : RoomsOk rooms curs)
    (p rid : String) (R : Room) (v : PartRec)
    (hR : lookupA rid rooms = some R)
    (hother : ∀ r' R', r' ≠ rid → lookupA r' rooms = some R' →
      lookupA p R' = none) :
    RoomsOk (setA rid (setA p v R) rooms) (setA p (some rid) curs) := by
  refine ⟨nodup_keys_setA _ _ _ h.ndR, ?_, ?_, ?_⟩
  · intro r R₂ hR₂
    by_cases hr : r = rid
    · subst hr
      rw [lookupA_setA_self] at hR₂
      cases hR₂
      exact nodup_keys_setA _ _ _ (h.ndM r R hR)
    · rw [lookupA_setA_ne _ _ hr] at hR₂
      exact h.ndM r R₂ hR₂
  · intro q r R₂ hR₂ hq
    by_cases hr : r = rid
    · subst hr
      rw [lookupA_setA_self] at hR₂
      cases hR₂
      by_cases hqp : q = p
      · subst hqp
        rw [lookupA_setA_self]
        rfl
      · rw [lookupA_setA_ne _ _ hqp] at hq
        rw [lookupA_setA_ne _ _ hqp]
        exact h.memCur q r R hR hq
    · rw [lookupA_setA_ne _ _ hr] at hR₂
      by_cases hqp : q = p
      · subst hqp
        rw [hother r R₂ hr hR₂] at hq
        simp at hq
      · rw [lookupA_setA_ne _ _ hqp]
        exact h.memCur q r R₂ hR₂ hq
  · intro q r hq
    by_cases hqp : q = p
    · subst hqp
      rw [lookupA_setA_self] at hq
      cases hq
      exact ⟨setA q v R, lookupA_setA_self _ _ _, by rw [lookupA_setA_self]; rfl⟩
    · rw [lookupA_setA_ne _ _ hqp] at hq
      obtain ⟨R₂, hR₂, hmem⟩ := h.curMem q r hq
      by_cases hr : r = rid
      · subst hr
        rw [hR] at hR₂
        cases hR₂
        exact ⟨setA p v R, lookupA_setA_self _ _ _,
          by rw [lookupA_setA_ne _ _ hqp]; exact hmem⟩
      · exact ⟨R₂, by rw [lookupA_setA_ne _ _ hr]; exact hR₂, hmem⟩

theorem roomsOk_removeMember {rooms : List (String × Room)}
    {curs : List (String × Option String)} (h : RoomsOk rooms curs)
    (p rid : String) (R : Room)
    (hR : lookupA rid rooms = some R)
    (hother : ∀ r' R', r' ≠ rid → lookupA r' rooms = some R' →
      lookupA p R' = none) :
    RoomsOk (setA rid (eraseA p R) rooms) (setA p none curs) := by
  refine ⟨nodup_keys_setA _ _ _ h.ndR, ?_, ?_, ?_⟩
  · intro r R₂ hR₂
    by_cases hr : r = rid
    · subst hr
      rw [lookupA_setA_self] at hR₂
      cases hR₂
      exact nodup_keys_eraseA _ _ (h.ndM r R hR)
    · rw [lookupA_setA_ne _ _ hr] at hR₂
      exact h.ndM r R₂ hR₂
  · intro q r R₂ hR₂ hq
    by_cases hqp : q = p
    · subst hqp
      by_cases hr : r = rid
      · subst hr
        rw [lookupA_setA_self] at hR₂
        cases hR₂
        rw [lookupA_eraseA_self _ _ (h.ndM r R hR)] at hq
        simp at hq
      · rw [lookupA_setA_ne _ _ hr] at hR₂
        rw [hother r R₂ hr hR₂] at hq
        simp at hq
    · rw [lookupA_setA_ne _ _ hqp]
      by_cases hr : r = rid
      · subst hr
        rw [lookupA_setA_self] at hR₂
        cases hR₂
        rw [lookupA_eraseA_ne _ hqp] at hq
        exact h.memCur q r R hR hq
      · rw [lookupA_setA_ne _ _ hr] at hR₂
        exact h.memCur q r R₂ hR₂ hq
  · intro q r hq
    by_cases hqp : q = p
    · subst hqp
      rw [lookupA_setA_self] at hq
      cases hq
    · rw [lookupA_setA_ne _ _ hqp] at hq
      obtain ⟨R₂, hR₂, hmem⟩ := h.curMem q r hq
      by_cases hr : r = rid
      · subst hr
        rw [hR] at hR₂
        cases hR₂
        exact ⟨eraseA p R, lookupA_setA_self _ _ _,
          by rw [lookupA_eraseA_ne _ hqp]; exact hmem⟩
      · exact ⟨R₂, by rw [lookupA_setA_ne _ _ hr]; exact hR₂, hmem⟩

/-- The room map after the get-or-create at the top of `handleJoin`. -/
def getOrCreate (rooms : List (String × Room)) (rid : String) :
    List (String × Room) :=
  if (lookupA rid rooms).isSome then rooms else rooms ++ [(rid, [])]

theorem lookupA_getOrCreate (rooms : List (String × Room)) (rid : String) :
    ∃ R, lookupA rid (getOrCreate rooms rid) = some R
      ∧ (lookupA rid rooms = some R ∨ (lookupA rid rooms = none ∧ R = [])) := by
  unfold getOrCreate
  cases hl : lookupA rid rooms with
  | some R => exact ⟨R, by simp [hl], Or.inl rfl⟩
  | none =>
    refine ⟨[], ?_, Or.inr ⟨rfl, rfl⟩⟩
    simp only [hl, Option.isSome_none, Bool.false_eq_true, if_false]
    rw [lookupA_append, hl]
    simp [lookupA]

theorem handleJoin_first (s : ServerState) (cur : Option String)
    (pid : String) (roomId : Option String) (hasCaps : Bool)
    (hcond : hasCaps = false
      ∨ lookupA pid ((lookupA (normRoom roomId)
          (getOrCreate s.rooms (normRoom roomId))).getD []) = none) :
    handleJoin s cur pid roomId hasCaps
      = ⟨{ s with
            rooms := setA (normRoom roomId)
              (setA pid ⟨none, false, false⟩
                ((lookupA (normRoom roomId)
                  (getOrCreate s.rooms (normRoom roomId))).getD []))
              (getOrCreate s.rooms (normRoom roomId)),
            facade := (s.facade.createTransport pid).1 },
          some (normRoom roomId),
          [(pid, SMsg.welcome (s.facade.createTransport pid).2)],
          [FCall.createTransport pid]⟩ := by
  rcases hcond with h | h
  · subst h
    rfl
  · unfold getOrCreate at h ⊢
    simp only [handleJoin]
    rw [h]
    cases hasCaps <;> rfl

theorem handleJoin_second (s : ServerState) (cur : Option String)
    (pid : String) (roomId : Option String) (R : Room) (prec : PartRec)
    (hR : lookupA (normRoom roomId) (getOrCreate s.rooms (normRoom roomId))
        = some R)
    (hmem : lookupA pid R = some prec) :
    handleJoin s cur pid roomId true
      = ⟨{ s with
            rooms := setA (normRoom roomId)
              (setA pid { prec with rtpCapabilities := true } R)
              (getOrCreate s.rooms (normRoom roomId)) },
          cur,
          (setA pid { prec with rtpCapabilities := true } R).flatMap
            (joinNotify pid),
          []⟩ := by
  unfold getOrCreate at hR ⊢
  simp only [handleJoin]
  rw [hR]
  simp only [Option.getD_some, hmem]
  rfl

theorem roomsOk_not_in_other {rooms : List (String × Room)}
    {curs : List (String × Option String)} (h : RoomsOk rooms curs)
    (p rid : String) (hcur : (lookupA p curs).getD none = some rid) :
    ∀ r' R', r' ≠ rid → lookupA r' rooms = some R' → lookupA p R' = none := by
  intro r' R' hne hR'
  cases hl : lookupA p R' with
  | none => rfl
  | some rec =>
    have := h.memCur p r' R' hR' (by rw [hl]; rfl)
    rw [hcur] at this
    cases this
    exact absurd rfl hne

theorem roomsOk_not_in_any {rooms : List (String × Room)}
    {curs : List (String × Option String)} (h : RoomsOk rooms curs)
    (p : String) (hcur : (lookupA p curs).getD none = none) :
    ∀ r' R', lookupA r' rooms = some R' → lookupA p R' = none := by
  intro r' R' hR'
  cases hl : lookupA p R' with
  | none => rfl
  | some rec =>
    have := h.memCur p r' R' hR' (by rw [hl]; rfl)
    rw [hcur] at this
    cases this

theorem roomsOk_resame {rooms : List (String × Room)}
    {curs : List (String × Option String)} (h : RoomsOk rooms curs)
    (p : String) (v : Option String)
    (hv : v = (lookupA p curs).getD none) :
    RoomsOk rooms (setA p v curs) := by
  refine roomsOk_curs_same h ?_
  intro q
  by_cases hq : q = p
  · subst hq
    rw [lookupA_setA_self, Option.getD_some, hv]
  · rw [lookupA_setA_ne _ _ hq]

/-! Handler characterizations used by the trace invariants. -/

theorem handleProduce_error (s : ServerState) (rid p : String) (tid : Nat)
    {e : String} (hp : s.facade.produce tid = .error e) :
    handleProduce s (some rid) p tid
      = ⟨s, some rid, [(p, SMsg.errorMsg "Failed to process request")],
          [FCall.produceCall tid]⟩ := by
  simp only [handleProduce, hp]

theorem handleProduce_ok (s : ServerState) (rid p : String) (tid : Nat)
    {fp : FacadeState × Nat} (hp : s.facade.produce tid = .ok fp)
    {R : Room} {rec : PartRec} (hR : lookupA rid s.rooms = some R)
    (hrec : lookupA p R = some rec) :
    handleProduce s (some rid) p tid
      = ⟨{ s with
            rooms := setA rid (setA p { rec with producerId := some fp.2 } R)
              s.rooms,
            facade := fp.1 },
          some rid,
          (p, SMsg.produceResponse fp.2) ::
            notifyParticipants (setA p { rec with producerId := some fp.2 } R)
              p (SMsg.newProducer fp.2 p),
          [FCall.produceCall tid]⟩ := by
  simp only [handleProduce, hp, hR, Option.getD_some, hrec]

theorem handleConsume_ok (s : ServerState) (rid p : String)
    (producerId : Nat) (capsOk : Bool) (mpid : Option String)
    {fc : FacadeState × Nat}
    (hc : (s.facade.createConsumerTransport p).1.consume p producerId capsOk
        = .ok fc) :
    handleConsume s (some rid) p producerId capsOk mpid
      = ⟨{ s with facade := fc.1 }, some rid,
          [(p, SMsg.consumeResponse fc.2 producerId
              (s.facade.createConsumerTransport p).2 (mpid.getD "unknown"))],
          [FCall.createConsumerTransport p, FCall.consumeCall p producerId]⟩ := by
  simp only [handleConsume, hc]

theorem handleConsume_error (s : ServerState) (rid p : String)
    (producerId : Nat) (capsOk : Bool) (mpid : Option String)
    {e : ConsumeErr}
    (hc : (s.facade.createConsumerTransport p).1.consume p producerId capsOk
        = .error e) :
    handleConsume s (some rid) p producerId capsOk mpid
      = ⟨{ s with facade := (s.facade.createConsumerTransport p).1 }, some rid,
          (p, SMsg.errorMsg ("Failed to create consumer: "
            ++ consumeErrMessage e p producerId)) ::
            [(p, SMsg.producerClosed producerId (mpid.getD "unknown"))],
          [FCall.createConsumerTransport p, FCall.consumeCall p producerId]⟩ := by
  simp only [handleConsume, hc, mentionsGoneProducer_consumeErrMessage, if_true]

theorem handleKilled_mem (s : ServerState) (rid p : String) (killed : Bool)
    {R : Room} {rec : PartRec} (hR : lookupA rid s.rooms = some R)
    (hrec : lookupA p R = some rec) :
    handleKilled s (some rid) p killed
      = ⟨{ s with
            rooms := setA rid (setA p { rec with isKilled := killed } R)
              s.rooms },
          some rid,
          notifyParticipants (setA p { rec with isKilled := killed } R) p
            (SMsg.participantKilled p killed),
          []⟩ := by
  simp only [handleKilled, hR, Option.getD_some, hrec]

theorem roomsInv_leave_applyH (sys : Sys) (p : String) (h : RoomsInv sys) :
    RoomsInv (applyH sys p (handleLeave sys.server (curOf sys p) p)) := by
  cases hc : curOf sys p with
  | none =>
    exact roomsOk_resame h p none hc.symm
  | some rid =>
    obtain ⟨R, hR, hmem⟩ := h.curMem p rid hc
    obtain ⟨rec, hrec⟩ := Option.isSome_iff_exists.1 hmem
    rw [handleLeave_eq sys.server rid p R rec hR hrec]
    exact roomsOk_removeMember h p rid R hR (roomsOk_not_in_other h p rid hc)

theorem roomsInv_step (sys : Sys) (ev : Ev) (h : RoomsInv sys)
    (ha : allowedJ sys ev = true) : RoomsInv (stepEv sys ev) := by
  cases ev with
  | close p => exact roomsInv_leave_applyH sys p h
  | msg p c =>
    cases c with
    | leave => exact roomsInv_leave_applyH sys p h
    | join roomId caps =>
      show RoomsInv (applyH sys p
        (handleJoin sys.server (curOf sys p) p roomId caps))
      have hg : RoomsOk (getOrCreate sys.server.rooms (normRoom roomId))
          sys.curs := roomsOk_getOrCreate h (normRoom roomId)
      obtain ⟨R₁, hR₁, hR₁src⟩ :=
        lookupA_getOrCreate sys.server.rooms (normRoom roomId)
      cases hc : curOf sys p with
      | none =>
        have hnm : lookupA p R₁ = none :=
          roomsOk_not_in_any hg p hc (normRoom roomId) R₁ hR₁
        rw [handleJoin_first sys.server none p roomId caps
          (Or.inr (by rw [hR₁, Option.getD_some]; exact hnm))]
        show RoomsOk (setA (normRoom roomId) (setA p ⟨none, false, false⟩
          ((lookupA (normRoom roomId)
            (getOrCreate sys.server.rooms (normRoom roomId))).getD []))
          (getOrCreate sys.server.rooms (normRoom roomId)))
          (setA p (some (normRoom roomId)) sys.curs)
        rw [hR₁, Option.getD_some]
        exact roomsOk_setMember hg p (normRoom roomId) R₁ _ hR₁
          (fun r' R' hne hR' => roomsOk_not_in_any hg p hc r' R' hR')
      | some r =>
        simp only [allowedJ, allowedJoin, hc, Bool.and_eq_true, beq_iff_eq] at ha
        obtain ⟨hcaps, hrid⟩ := ha
        subst hcaps
        obtain ⟨R, hR, hmem⟩ := h.curMem p r hc
        have hRg : lookupA (normRoom roomId)
            (getOrCreate sys.server.rooms (normRoom roomId)) = some R := by
          rw [hrid]
          unfold getOrCreate
          rw [hR]
          simp [hR]
        obtain ⟨prec, hprec⟩ := Option.isSome_iff_exists.1 hmem
        rw [handleJoin_second sys.server (some r) p roomId R prec hRg hprec]
        show RoomsOk (setA (normRoom roomId)
          (setA p { prec with rtpCapabilities := true } R)
          (getOrCreate sys.server.rooms (normRoom roomId)))
          (setA p (some r) sys.curs)
        have hgoc : getOrCreate sys.server.rooms (normRoom roomId)
            = sys.server.rooms := by
          rw [hrid]
          unfold getOrCreate
          rw [hR]
          simp
        rw [hgoc, hrid]
        exact roomsOk_setMember h p r R _ hR (roomsOk_not_in_other h p r hc)
    | produce tid =>
      show RoomsInv (applyH sys p
        (handleProduce sys.server (curOf sys p) p tid))
      cases hc : curOf sys p with
      | none =>
        exact roomsOk_resame h p none hc.symm
      | some rid =>
        cases hp : sys.server.facade.produce tid with
        | error e =>
          rw [handleProduce_error sys.server rid p tid hp]
          exact roomsOk_resame h p (some rid) hc.symm
        | ok fp =>
          obtain ⟨R, hR, hmem⟩ := h.curMem p rid hc
          obtain ⟨rec, hrec⟩ := Option.isSome_iff_exists.1 hmem
          rw [handleProduce_ok sys.server rid p tid hp hR hrec]
          exact roomsOk_setMember h p rid R _ hR
            (roomsOk_not_in_other h p rid hc)
    | requestConsume producerId capsOk mpid =>
      show RoomsInv (applyH sys p
        (handleConsume sys.server (curOf sys p) p producerId capsOk mpid))
      cases hc : curOf sys p with
      | none =>
        exact roomsOk_resame h p none hc.symm
      | some rid =>
        cases hcon : (sys.server.facade.createConsumerTransport p).1.consume p
            producerId capsOk with
        | error e =>
          rw [handleConsume_error sys.server rid p producerId capsOk mpid hcon]
          exact roomsOk_resame h p (some rid) hc.symm
        | ok fc =>
          rw [handleConsume_ok sys.server rid p producerId capsOk mpid hcon]
          exact roomsOk_resame h p (some rid) hc.symm
    | participantKilled killed =>
      show RoomsInv (applyH sys p
        (handleKilled sys.server (curOf sys p) p killed))
      cases hc : curOf sys p with
      | none =>
        exact roomsOk_resame h p none hc.symm
      | some rid =>
        obtain ⟨R, hR, hmem⟩ := h.curMem p rid hc
        obtain ⟨rec, hrec⟩ := Option.isSome_iff_exists.1 hmem
        rw [handleKilled_mem sys.server rid p killed hR hrec]
        exact roomsOk_setMember h p rid R _ hR
          (roomsOk_not_in_other h p rid hc)
    | nicknameChange nickname =>
      show RoomsInv (applyH sys p
        (handleNickname sys.server (curOf sys p) p nickname))
      cases hc : curOf sys p with
      | none =>
        exact roomsOk_resame h p none hc.symm
      | some rid =>
        exact roomsOk_resame h p (some rid) hc.symm
    | connectTransport tid =>
      show RoomsInv (applyH sys p (handleMessage sys.server (curOf sys p) p
        (CMsg.connectTransport tid)))
      by_cases hok : sys.server.facade.connectTransportOk tid = true
      · rw [show handleMessage sys.server (curOf sys p) p
            (CMsg.connectTransport tid)
            = ⟨sys.server, curOf sys p, [], [FCall.connectTransport tid]⟩ from
          by simp [handleMessage, hok]]
        exact roomsOk_resame h p (curOf sys p) rfl
      · rw [show handleMessage sys.server (curOf sys p) p
            (CMsg.connectTransport tid)
            = ⟨sys.server, curOf sys p,
                [(p, SMsg.errorMsg "Failed to process request")],
                [FCall.connectTransport tid]⟩ from
          by simp [handleMessage, hok]]
        exact roomsOk_resame h p (curOf sys p) rfl
    | ping => exact roomsOk_resame h p (curOf sys p) rfl
    | unknown ty => exact roomsOk_resame h p (curOf sys p) rfl
    | malformed => exact roomsOk_resame h p (curOf sys p) rfl

theorem roomsInv_run (sys : Sys) (evs : List Ev) (h : RoomsInv sys)
    (hwf : WFrun allowedJ sys evs = true) : RoomsInv (run sys evs) := by
  induction evs generalizing sys with
  | nil => exact h
  | cons ev rest ih =>
    simp only [WFrun, Bool.and_eq_true] at hwf
    exact ih (stepEv sys ev) (roomsInv_step sys ev h hwf.1) hwf.2

theorem roomsInv_sys0 : RoomsInv sys0 := by
  refine ⟨?_, ?_, ?_, ?_⟩
  · simp [sys0]
  · intro r R hR
    simp only [sys0, lookupA] at hR
    by_cases h : "default-room" = r <;> simp [h] at hR
    subst hR
    simp
  · intro q r R hR hq
    simp only [sys0, lookupA] at hR
    by_cases h : "default-room" = r <;> simp [h] at hR
    subst hR
    simp [lookupA] at hq
  · intro q r hq
    simp [sys0, lookupA] at hq

/-! ## Claim C4 -/

/-- Counterexample to claim C4.  The claim says a participant is in at
most one room in every reachable state.  A session that JOINs room `A`
and then JOINs room `B` without an intervening LEAVE ends up in both
rooms' participant maps: the second JOIN takes the first-JOIN path of
`handleJoin`, which adds the participant to `B` without removing it from
`A`. -/
theorem c4_counterexample :
    lookupA "a"
        ((lookupA "A" (run sys0 [Ev.msg "a" (CMsg.join (some "A") false),
          Ev.msg "a" (CMsg.join (some "B") false)]).server.rooms).getD [])
      = some ⟨none, false, false⟩ ∧
    lookupA "a"
        ((lookupA "B" (run sys0 [Ev.msg "a" (CMsg.join (some "A") false),
          Ev.msg "a" (CMsg.join (some "B") false)]).server.rooms).getD [])
      = some ⟨none, false, false⟩ ∧
    "A" ≠ "B" := by
  refine ⟨by decide, by decide, by decide⟩

/-- Claim C4, amended.  In every state reachable by a trace in which each
JOIN from a session that is already in a room is the capability-bearing
second JOIN for that same room (the LEAVE-before-switching discipline the
protocol prescribes; claim C4's counterexample shows it is necessary),
every participant id is in the participant map of at most one room. -/
theorem c4_participant_in_at_most_one_room (evs : List Ev)
    (hwf : WFrun allowedJ sys0 evs = true) (p r₁ r₂ : String)
    (R₁ R₂ : Room)
    (h₁ : lookupA r₁ (run sys0 evs).server.rooms = some R₁)
    (hm₁ : (lookupA p R₁).isSome)
    (h₂ : lookupA r₂ (run sys0 evs).server.rooms = some R₂)
    (hm₂ : (lookupA p R₂).isSome) : r₁ = r₂ := by
  have hinv := roomsInv_run sys0 evs roomsInv_sys0 hwf
  have e₁ := hinv.memCur p r₁ R₁ h₁ hm₁
  have e₂ := hinv.memCur p r₂ R₂ h₂ hm₂
  rw [e₁] at e₂
  cases e₂
  rfl

/-! ## Facade-resource invariant (claim C3) -/

theorem mem_setA_subset [DecidableEq α] {x : α × β} {k : α} {v : β}
    {l : List (α × β)} (hx : x ∈ setA k v l) : x = (k, v) ∨ x ∈ l := by
  induction l with
  | nil => simpa [setA] using hx
  | cons hd tl ih =>
    by_cases h : hd.1 = k
    · simp only [setA, if_pos h] at hx
      rcases List.mem_cons.1 hx with h1 | h1
      · exact Or.inl h1
      · exact Or.inr (List.mem_cons_of_mem _ h1)
    · simp only [setA, if_neg h] at hx
      rcases List.mem_cons.1 hx with h1 | h1
      · exact Or.inr (h1 ▸ List.mem_cons_self _ _)
      · rcases ih h1 with h2 | h2
        · exact Or.inl h2
        · exact Or.inr (List.mem_cons_of_mem _ h2)

theorem lookupA_getOrCreate_of_some {rooms : List (String × Room)}
    {r rid : String} {R : Room} (h : lookupA r rooms = some R) :
    lookupA r (getOrCreate rooms rid) = some R := by
  unfold getOrCreate
  by_cases hex : (lookupA rid rooms).isSome
  · simpa [hex]
  · have hnone : lookupA rid rooms = none := Option.not_isSome_iff_eq_none.1 hex
    rw [show (if (lookupA rid rooms).isSome then rooms
        else rooms ++ [(rid, [])]) = rooms ++ [(rid, [])] from by simp [hnone]]
    rw [lookupA_append, h]

/-- Well-formedness of the facade state relative to the rooms and session
bindings: every participant slot belongs to a live session, every live
producer is the current producer of some room record, every global
consumer is reachable for cleanup (its producer is live, or it is current
in some participant slot), per-slot consumer entries agree with the
global map, all keys are unique, and `nextId` dominates every allocated
id. -/
structure FacadeInv (sys : Sys) : Prop where
  pt_cur : ∀ p, (lookupA p sys.server.facade.participantTransports).isSome →
    curOf sys p ≠ none
  nd_pt : ((sys.server.facade.participantTransports).map Prod.fst).Nodup
  nd_prod : sys.server.facade.producers.Nodup
  nd_cons : ((sys.server.facade.consumers).map Prod.fst).Nodup
  prod_wit : ∀ P ∈ sys.server.facade.producers, ∃ p rid R rec,
    curOf sys p = some rid ∧ lookupA rid sys.server.rooms = some R ∧
    lookupA p R = some rec ∧ rec.producerId = some P
  cons_wit : ∀ c P, (c, P) ∈ sys.server.facade.consumers →
    P ∈ sys.server.facade.producers ∨ ∃ p d pr,
      lookupA p sys.server.facade.participantTransports = some d ∧
      (pr, c) ∈ d.consumers
  link : ∀ c P, (c, P) ∈ sys.server.facade.consumers → ∀ p d pr,
    lookupA p sys.server.facade.participantTransports = some d →
    (pr, c) ∈ d.consumers → P = pr
  fresh_prod : ∀ P ∈ sys.server.facade.producers,
    P < sys.server.facade.nextId
  fresh_recP : ∀ r R q rec P, lookupA r sys.server.rooms = some R →
    lookupA q R = some rec → rec.producerId = some P →
    P < sys.server.facade.nextId
  fresh_cons : ∀ c P, (c, P) ∈ sys.server.facade.consumers →
    c < sys.server.facade.nextId
  fresh_ptc : ∀ p d, lookupA p sys.server.facade.participantTransports
      = some d → ∀ pr c, (pr, c) ∈ d.consumers →
    c < sys.server.facade.nextId

/-- The facade-call log tracks joins: a session in a room has logged its
transport creation, and a logged transport creation is either still live
or followed by a logged `removeParticipant`. -/
structure LogInv (sys : Sys) : Prop where
  cur_logged : ∀ p, curOf sys p ≠ none → FCall.createTransport p ∈ sys.log
  removed_logged : ∀ p, FCall.createTransport p ∈ sys.log →
    curOf sys p ≠ none ∨ FCall.removeParticipant p ∈ sys.log

/-- The full inductive invariant for claim C3. -/
structure GoodF (sys : Sys) : Prop where
  rooms : RoomsInv sys
  fac : FacadeInv sys
  log : LogInv sys

theorem facadeInv_congr {sys sys' : Sys} (h : FacadeInv sys)
    (hfac : sys'.server.facade = sys.server.facade)
    (hrooms : sys'.server.rooms = sys.server.rooms)
    (hcur : ∀ q, curOf sys' q = curOf sys q) : FacadeInv sys' where
  pt_cur p hp := by rw [hcur]; exact h.pt_cur p (by rw [← hfac]; exact hp)
  nd_pt := by rw [hfac]; exact h.nd_pt
  nd_prod := by rw [hfac]; exact h.nd_prod
  nd_cons := by rw [hfac]; exact h.nd_cons
  prod_wit P hP := by
    obtain ⟨p, rid, R, rec, h1, h2, h3, h4⟩ :=
      h.prod_wit P (by rw [← hfac]; exact hP)
    exact ⟨p, rid, R, rec, by rw [hcur]; exact h1, by rw [hrooms]; exact h2,
      h3, h4⟩
  cons_wit c P hc := by
    rw [hfac]
    exact h.cons_wit c P (by rw [← hfac]; exact hc)
  link c P hc p d pr hd hpr := h.link c P (by rw [← hfac]; exact hc) p d pr
    (by rw [← hfac]; exact hd) hpr
  fresh_prod P hP := by
    rw [hfac]
    exact h.fresh_prod P (by rw [← hfac]; exact hP)
  fresh_recP r R q rec P h1 h2 h3 := by
    rw [hfac]
    exact h.fresh_recP r R q rec P (by rw [← hrooms]; exact h1) h2 h3
  fresh_cons c P hc := by
    rw [hfac]
    exact h.fresh_cons c P (by rw [← hfac]; exact hc)
  fresh_ptc p d hd pr c hc := by
    rw [hfac]
    exact h.fresh_ptc p d (by rw [← hfac]; exact hd) pr c hc

theorem logInv_extend {sys sys' : Sys} (h : LogInv sys)
    (hcur : ∀ q, curOf sys' q = curOf sys q) (l : List FCall)
    (hlog : sys'.log = sys.log ++ l)
    (hno : ∀ p, FCall.createTransport p ∉ l) : LogInv sys' where
  cur_logged p hp := by
    rw [hlog]
    exact List.mem_append_left _ (h.cur_logged p (by rw [← hcur]; exact hp))
  removed_logged p hp := by
    rw [hlog] at hp
    rcases List.mem_append.1 hp with h1 | h1
    · rcases h.removed_logged p h1 with h2 | h2
      · exact Or.inl (by rw [hcur]; exact h2)
      · exact Or.inr (by rw [hlog]; exact List.mem_append_left _ h2)
    · exact absurd h1 (hno p)

theorem produce_ok_eq {f : FacadeState} {tid : Nat} {fp : FacadeState × Nat}
    (h : f.produce tid = .ok fp) :
    fp = ({ f with
        producers := f.producers ++ [f.nextId],
        nextId := f.nextId + 1 }, f.nextId) := by
  unfold FacadeState.produce at h
  by_cases hc : f.participantTransports.any
      (fun pd => pd.2.sendTransport = some tid)
  · rw [if_pos hc] at h
    cases h
    rfl
  · rw [if_neg hc] at h
    cases h

theorem createTransport_eq (f : FacadeState) (p : String) :
    f.createTransport p
      = ({ f with
            participantTransports := setA p
              { (lookupA p f.participantTransports).getD ⟨none, none, []⟩ with
                  sendTransport := some f.nextId } f.participantTransports,
            nextId := f.nextId + 1 }, f.nextId) := rfl

theorem createConsumerTransport_spec (f : FacadeState) (p : String) :
    f.createConsumerTransport p = (f, (f.createConsumerTransport p).2) ∨
    f.createConsumerTransport p
      = ({ f with
            participantTransports := setA p
              { (lookupA p f.participantTransports).getD ⟨none, none, []⟩ with
                  recvTransport := some f.nextId } f.participantTransports,
            nextId := f.nextId + 1 }, f.nextId) := by
  unfold FacadeState.createConsumerTransport
  cases hl : lookupA p f.participantTransports with
  | none =>
    right
    rfl
  | some data =>
    cases hr : data.recvTransport with
    | none =>
      right
      dsimp only
      rw [hr]
      rfl
    | some t =>
      left
      dsimp only
      rw [hr]

theorem consume_ok_eq {f : FacadeState} {p : String} {producerId : Nat}
    {capsOk : Bool} {fc : FacadeState × Nat}
    (h : f.consume p producerId capsOk = .ok fc) :
    ∃ data, lookupA p f.participantTransports = some data ∧
      (producerId ∈ f.producers ∧ capsOk = true) ∧
      fc = ({ f with
          consumers := f.consumers ++ [(f.nextId, producerId)],
          participantTransports := setA p
            { data with consumers := setA producerId f.nextId data.consumers }
            f.participantTransports,
          nextId := f.nextId + 1 }, f.nextId) := by
  unfold FacadeState.consume at h
  cases hl : lookupA p f.participantTransports with
  | none =>
    rw [hl] at h
    cases h
  | some data =>
    rw [hl] at h
    dsimp only at h
    cases hr : data.recvTransport with
    | none =>
      rw [hr] at h
      cases h
    | some t =>
      rw [hr] at h
      dsimp only at h
      by_cases hc : producerId ∈ f.producers ∧ capsOk = true
      · rw [if_pos hc] at h
        cases h
        exact ⟨data, rfl, hc, by rw [hr]⟩
      · rw [if_neg hc] at h
        cases h

theorem lookupA_getOrCreate_inv {rooms : List (String × Room)}
    {r rid : String} {R : Room}
    (h : lookupA r (getOrCreate rooms rid) = some R) :
    lookupA r rooms = some R ∨ (r = rid ∧ R = []) := by
  unfold getOrCreate at h
  by_cases hex : (lookupA rid rooms).isSome
  · rw [if_pos hex] at h
    exact Or.inl h
  · have hnone : lookupA rid rooms = none := Option.not_isSome_iff_eq_none.1 hex
    rw [show (if (lookupA rid rooms).isSome then rooms
        else rooms ++ [(rid, [])]) = rooms ++ [(rid, [])] from by simp [hnone],
      lookupA_append] at h
    cases hold : lookupA r rooms with
    | some R₀ =>
      rw [hold] at h
      cases h
      exact Or.inl rfl
    | none =>
      rw [hold] at h
      simp only [lookupA] at h
      by_cases hr : rid = r
      · rw [if_pos hr] at h
        cases h
        exact Or.inr ⟨hr.symm, rfl⟩
      · rw [if_neg hr] at h
        cases h

theorem facadeInv_record_update {sys sys' : Sys} (h : FacadeInv sys)
    (p rid : String) (R : Room) (rec v : PartRec)
    (hcur : curOf sys p = some rid)
    (hR : lookupA rid sys.server.rooms = some R)
    (hrec : lookupA p R = some rec)
    (hprod : v.producerId = rec.producerId)
    (hrooms : sys'.server.rooms = setA rid (setA p v R) sys.server.rooms)
    (hfac : sys'.server.facade = sys.server.facade)
    (hcurs : ∀ q, curOf sys' q = curOf sys q) : FacadeInv sys' where
  pt_cur q hq := by
    rw [hcurs]
    exact h.pt_cur q (by rw [← hfac]; exact hq)
  nd_pt := by rw [hfac]; exact h.nd_pt
  nd_prod := by rw [hfac]; exact h.nd_prod
  nd_cons := by rw [hfac]; exact h.nd_cons
  prod_wit P hP := by
    obtain ⟨q, ridq, Rq, recq, e1, e2, e3, e4⟩ :=
      h.prod_wit P (by rw [← hfac]; exact hP)
    rw [hrooms]
    by_cases hr : ridq = rid
    · subst hr
      rw [hR] at e2
      cases e2
      by_cases hqp : q = p
      · subst hqp
        rw [hrec] at e3
        cases e3
        exact ⟨q, ridq, setA q v R, v, by rw [hcurs]; exact e1,
          lookupA_setA_self _ _ _, lookupA_setA_self _ _ _, by rw [hprod]; exact e4⟩
      · exact ⟨q, ridq, setA p v R, recq, by rw [hcurs]; exact e1,
          lookupA_setA_self _ _ _, by rw [lookupA_setA_ne _ _ hqp]; exact e3, e4⟩
    · exact ⟨q, ridq, Rq, recq, by rw [hcurs]; exact e1,
        by rw [lookupA_setA_ne _ _ hr]; exact e2, e3, e4⟩
  cons_wit c P hc := by
    rw [hfac]
    exact h.cons_wit c P (by rw [← hfac]; exact hc)
  link c P hc q d pr hd hpr := h.link c P (by rw [← hfac]; exact hc) q d pr
    (by rw [← hfac]; exact hd) hpr
  fresh_prod P hP := by
    rw [hfac]
    exact h.fresh_prod P (by rw [← hfac]; exact hP)
  fresh_recP r R₂ q rec₂ P h1 h2 h3 := by
    rw [hfac]
    rw [hrooms] at h1
    by_cases hr : r = rid
    · subst hr
      rw [lookupA_setA_self] at h1
      cases h1
      by_cases hqp : q = p
      · subst hqp
        rw [lookupA_setA_self] at h2
        cases h2
        rw [hprod] at h3
        exact h.fresh_recP r R q rec P hR hrec h3
      · rw [lookupA_setA_ne _ _ hqp] at h2
        exact h.fresh_recP r R q rec₂ P hR h2 h3
    · rw [lookupA_setA_ne _ _ hr] at h1
      exact h.fresh_recP r R₂ q rec₂ P h1 h2 h3
  fresh_cons c P hc := by
    rw [hfac]
    exact h.fresh_cons c P (by rw [← hfac]; exact hc)
  fresh_ptc q d hd pr c hc := by
    rw [hfac]
    exact h.fresh_ptc q d (by rw [← hfac]; exact hd) pr c hc

theorem facadeInv_produce_ok {sys sys' : Sys} (h : FacadeInv sys)
    (p rid : String) (R : Room) (rec : PartRec)
    (hcur : curOf sys p = some rid)
    (hR : lookupA rid sys.server.rooms = some R)
    (hrec : lookupA p R = some rec)
    (hnone : rec.producerId = none)
    (hrooms : sys'.server.rooms = setA rid
      (setA p { rec with producerId := some sys.server.facade.nextId } R)
      sys.server.rooms)
    (hfac : sys'.server.facade = { sys.server.facade with
        producers := sys.server.facade.producers ++ [sys.server.facade.nextId],
        nextId := sys.server.facade.nextId + 1 })
    (hcurs : ∀ q, curOf sys' q = curOf sys q) : FacadeInv sys' where
  pt_cur q hq := by
    rw [hcurs]
    exact h.pt_cur q (by rw [← show sys'.server.facade.participantTransports
      = sys.server.facade.participantTransports from by rw [hfac]]; exact hq)
  nd_pt := by rw [hfac]; exact h.nd_pt
  nd_prod := by
    rw [hfac]
    refine List.Nodup.append h.nd_prod (List.nodup_singleton _) ?_
    intro P hP
    simp only [List.mem_singleton]
    exact fun he => absurd (he ▸ h.fresh_prod P hP) (lt_irrefl _)
  nd_cons := by rw [hfac]; exact h.nd_cons
  prod_wit P hP := by
    rw [hfac] at hP
    rw [hrooms]
    rcases List.mem_append.1 hP with hP | hP
    · obtain ⟨q, ridq, Rq, recq, e1, e2, e3, e4⟩ := h.prod_wit P hP
      by_cases hr : ridq = rid
      · subst hr
        rw [hR] at e2
        cases e2
        by_cases hqp : q = p
        · subst hqp
          rw [hrec] at e3
          cases e3
          rw [hnone] at e4
          cases e4
        · exact ⟨q, ridq, _, recq, by rw [hcurs]; exact e1,
            lookupA_setA_self _ _ _,
            by rw [lookupA_setA_ne _ _ hqp]; exact e3, e4⟩
      · exact ⟨q, ridq, Rq, recq, by rw [hcurs]; exact e1,
          by rw [lookupA_setA_ne _ _ hr]; exact e2, e3, e4⟩
    · rw [List.mem_singleton] at hP
      subst hP
      exact ⟨p, rid, _, _, by rw [hcurs]; exact hcur, lookupA_setA_self _ _ _,
        lookupA_setA_self _ _ _, rfl⟩
  cons_wit c P hc := by
    rw [hfac] at hc ⊢
    rcases h.cons_wit c P hc with h1 | h1
    · exact Or.inl (List.mem_append_left _ h1)
    · exact Or.inr h1
  link c P hc q d pr hd hpr := by
    rw [hfac] at hc hd
    exact h.link c P hc q d pr hd hpr
  fresh_prod P hP := by
    rw [hfac] at hP ⊢
    rcases List.mem_append.1 hP with h1 | h1
    · exact Nat.lt_succ_of_lt (h.fresh_prod P h1)
    · rw [List.mem_singleton] at h1
      subst h1
      exact Nat.lt_succ_self _
  fresh_recP r R₂ q rec₂ P h1 h2 h3 := by
    rw [hfac]
    rw [hrooms] at h1
    by_cases hr : r = rid
    · subst hr
      rw [lookupA_setA_self] at h1
      cases h1
      by_cases hqp : q = p
      · subst hqp
        rw [lookupA_setA_self] at h2
        cases h2
        simp only [] at h3
        cases h3
        exact Nat.lt_succ_self _
      · rw [lookupA_setA_ne _ _ hqp] at h2
        exact Nat.lt_succ_of_lt (h.fresh_recP r R q rec₂ P hR h2 h3)
    · rw [lookupA_setA_ne _ _ hr] at h1
      exact Nat.lt_succ_of_lt (h.fresh_recP r R₂ q rec₂ P h1 h2 h3)
  fresh_cons c P hc := by
    rw [hfac] at hc ⊢
    exact Nat.lt_succ_of_lt (h.fresh_cons c P hc)
  fresh_ptc q d hd pr c hc := by
    rw [hfac] at hd ⊢
    exact Nat.lt_succ_of_lt (h.fresh_ptc q d hd pr c hc)

theorem facadeInv_createTransport {sys sys' : Sys} (h : FacadeInv sys)
    (p rid : String) (R₁ : Room)
    (hcur : curOf sys p = none)
    (hR₁ : lookupA rid (getOrCreate sys.server.rooms rid) = some R₁)
    (hrooms : sys'.server.rooms = setA rid (setA p ⟨none, false, false⟩ R₁)
      (getOrCreate sys.server.rooms rid))
    (hfac : sys'.server.facade = (sys.server.facade.createTransport p).1)
    (hcurs : ∀ q, curOf sys' q
      = if q = p then some rid else curOf sys q) : FacadeInv sys' := by
  have hfac' : sys'.server.facade = { sys.server.facade with
      participantTransports := setA p
        { (lookupA p sys.server.facade.participantTransports).getD
            ⟨none, none, []⟩ with
          sendTransport := some sys.server.facade.nextId }
        sys.server.facade.participantTransports,
      nextId := sys.server.facade.nextId + 1 } := by
    rw [hfac, createTransport_eq]
  clear hfac
  refine ⟨?_, ?_, ?_, ?_, ?_, ?_, ?_, ?_, ?_, ?_, ?_⟩
  · intro q hq
    rw [hcurs]
    by_cases hqp : q = p
    · simp [hqp]
    · rw [if_neg hqp]
      rw [hfac'] at hq
      simp only [] at hq
      rw [lookupA_setA_ne _ _ hqp] at hq
      exact h.pt_cur q hq
  · rw [hfac']
    exact nodup_keys_setA _ _ _ h.nd_pt
  · rw [hfac']
    exact h.nd_prod
  · rw [hfac']
    exact h.nd_cons
  · intro P hP
    rw [hfac'] at hP
    obtain ⟨q, ridq, Rq, recq, e1, e2, e3, e4⟩ := h.prod_wit P hP
    have hqp : q ≠ p := by
      rintro rfl
      rw [hcur] at e1
      cases e1
    rw [hrooms]
    by_cases hr : ridq = rid
    · subst hr
      have e2' : lookupA ridq (getOrCreate sys.server.rooms ridq) = some Rq :=
        lookupA_getOrCreate_of_some e2
      rw [hR₁] at e2'
      cases e2'
      exact ⟨q, ridq, _, recq, by rw [hcurs, if_neg hqp]; exact e1,
        lookupA_setA_self _ _ _,
        by rw [lookupA_setA_ne _ _ hqp]; exact e3, e4⟩
    · exact ⟨q, ridq, Rq, recq, by rw [hcurs, if_neg hqp]; exact e1,
        by rw [lookupA_setA_ne _ _ hr]
           exact lookupA_getOrCreate_of_some e2, e3, e4⟩
  · intro c P hc
    rw [hfac'] at hc ⊢
    rcases h.cons_wit c P hc with h1 | h1
    · exact Or.inl h1
    · obtain ⟨q, d, pr, hq, hpr⟩ := h1
      by_cases hqp : q = p
      · subst hqp
        refine Or.inr ⟨q, _, pr, lookupA_setA_self _ _ _, ?_⟩
        rw [hq]
        exact hpr
      · exact Or.inr ⟨q, d, pr, by rw [lookupA_setA_ne _ _ hqp]; exact hq, hpr⟩
  · intro c P hc q d pr hd hpr
    rw [hfac'] at hc hd
    by_cases hqp : q = p
    · subst hqp
      rw [lookupA_setA_self] at hd
      cases hd
      cases hl : lookupA q sys.server.facade.participantTransports with
      | none =>
        rw [hl] at hpr
        simp at hpr
      | some d₀ =>
        rw [hl] at hpr
        exact h.link c P hc q d₀ pr hl hpr
    · rw [lookupA_setA_ne _ _ hqp] at hd
      exact h.link c P hc q d pr hd hpr
  · intro P hP
    rw [hfac'] at hP ⊢
    exact Nat.lt_succ_of_lt (h.fresh_prod P hP)
  · intro r R₂ q rec₂ P h1 h2 h3
    rw [hfac']
    rw [hrooms] at h1
    by_cases hr : r = rid
    · subst hr
      rw [lookupA_setA_self] at h1
      cases h1
      by_cases hqp : q = p
      · subst hqp
        rw [lookupA_setA_self] at h2
        cases h2
        cases h3
      · rw [lookupA_setA_ne _ _ hqp] at h2
        rcases lookupA_getOrCreate_inv hR₁ with hx | hx
        · exact Nat.lt_succ_of_lt (h.fresh_recP r R₁ q rec₂ P hx h2 h3)
        · rw [hx.2] at h2
          cases h2
    · rw [lookupA_setA_ne _ _ hr] at h1
      rcases lookupA_getOrCreate_inv h1 with hx | hx
      · exact Nat.lt_succ_of_lt (h.fresh_recP r R₂ q rec₂ P hx h2 h3)
      · exact absurd hx.1 hr
  · intro c P hc
    rw [hfac'] at hc ⊢
    exact Nat.lt_succ_of_lt (h.fresh_cons c P hc)
  · intro q d hd pr c hc
    rw [hfac'] at hd ⊢
    by_cases hqp : q = p
    · subst hqp
      rw [lookupA_setA_self] at hd
      cases hd
      cases hl : lookupA q sys.server.facade.participantTransports with
      | none =>
        rw [hl] at hc
        simp at hc
      | some d₀ =>
        rw [hl] at hc
        exact Nat.lt_succ_of_lt (h.fresh_ptc q d₀ hl pr c hc)
    · rw [lookupA_setA_ne _ _ hqp] at hd
      exact Nat.lt_succ_of_lt (h.fresh_ptc q d hd pr c hc)

theorem facadeInv_createConsumerTransport {sys sys' : Sys} (h : FacadeInv sys)
    (p : String) (hcur : curOf sys p ≠ none)
    (hfac : sys'.server.facade = (sys.server.facade.createConsumerTransport p).1)
    (hrooms : sys'.server.rooms = sys.server.rooms)
    (hcurs : ∀ q, curOf sys' q = curOf sys q) : FacadeInv sys' := by
  rcases createConsumerTransport_spec sys.server.facade p with hspec | hspec
  · exact facadeInv_congr h (by rw [hfac, hspec]) hrooms hcurs
  · have hfac' : sys'.server.facade = { sys.server.facade with
        participantTransports := setA p
          { (lookupA p sys.server.facade.participantTransports).getD
              ⟨none, none, []⟩ with
            recvTransport := some sys.server.facade.nextId }
          sys.server.facade.participantTransports,
        nextId := sys.server.facade.nextId + 1 } := by
      rw [hfac, hspec]
    clear hfac hspec
    refine ⟨?_, ?_, ?_, ?_, ?_, ?_, ?_, ?_, ?_, ?_, ?_⟩
    · intro q hq
      rw [hcurs]
      by_cases hqp : q = p
      · subst hqp
        exact hcur
      · rw [hfac'] at hq
        simp only [] at hq
        rw [lookupA_setA_ne _ _ hqp] at hq
        exact h.pt_cur q hq
    · rw [hfac']
      exact nodup_keys_setA _ _ _ h.nd_pt
    · rw [hfac']
      exact h.nd_prod
    · rw [hfac']
      exact h.nd_cons
    · intro P hP
      rw [hfac'] at hP
      obtain ⟨q, ridq, Rq, recq, e1, e2, e3, e4⟩ := h.prod_wit P hP
      exact ⟨q, ridq, Rq, recq, by rw [hcurs]; exact e1,
        by rw [hrooms]; exact e2, e3, e4⟩
    · intro c P hc
      rw [hfac'] at hc ⊢
      rcases h.cons_wit c P hc with h1 | h1
      · exact Or.inl h1
      · obtain ⟨q, d, pr, hq, hpr⟩ := h1
        by_cases hqp : q = p
        · subst hqp
          refine Or.inr ⟨q, _, pr, lookupA_setA_self _ _ _, ?_⟩
          rw [hq]
          exact hpr
        · exact Or.inr ⟨q, d, pr, by rw [lookupA_setA_ne _ _ hqp]; exact hq,
            hpr⟩
    · intro c P hc q d pr hd hpr
      rw [hfac'] at hc hd
      by_cases hqp : q = p
      · subst hqp
        rw [lookupA_setA_self] at hd
        cases hd
        cases hl : lookupA q sys.server.facade.participantTransports with
        | none =>
          rw [hl] at hpr
          simp at hpr
        | some d₀ =>
          rw [hl] at hpr
          exact h.link c P hc q d₀ pr hl hpr
      · rw [lookupA_setA_ne _ _ hqp] at hd
        exact h.link c P hc q d pr hd hpr
    · intro P hP
      rw [hfac'] at hP ⊢
      exact Nat.lt_succ_of_lt (h.fresh_prod P hP)
    · intro r R₂ q rec₂ P h1 h2 h3
      rw [hfac']
      rw [hrooms] at h1
      exact Nat.lt_succ_of_lt (h.fresh_recP r R₂ q rec₂ P h1 h2 h3)
    · intro c P hc
      rw [hfac'] at hc ⊢
      exact Nat.lt_succ_of_lt (h.fresh_cons c P hc)
    · intro q d hd pr c hc
      rw [hfac'] at hd ⊢
      by_cases hqp : q = p
      · subst hqp
        rw [lookupA_setA_self] at hd
        cases hd
        cases hl : lookupA q sys.server.facade.participantTransports with
        | none =>
          rw [hl] at hc
          simp at hc
        | some d₀ =>
          rw [hl] at hc
          exact Nat.lt_succ_of_lt (h.fresh_ptc q d₀ hl pr c hc)
      · rw [lookupA_setA_ne _ _ hqp] at hd
        exact Nat.lt_succ_of_lt (h.fresh_ptc q d hd pr c hc)

theorem mem_setA_of_ne [DecidableEq α] {x : α × β} {k : α} {v : β}
    {l : List (α × β)} (hx : x ∈ l) (hne : x.1 ≠ k) : x ∈ setA k v l := by
  induction l with
  | nil => simp at hx
  | cons hd tl ih =>
    by_cases h : hd.1 = k
    · simp only [setA, if_pos h]
      rcases List.mem_cons.1 hx with h1 | h1
      · exact absurd (h1 ▸ h) hne
      · exact List.mem_cons_of_mem _ h1
    · simp only [setA, if_neg h]
      rcases List.mem_cons.1 hx with h1 | h1
      · exact h1 ▸ List.mem_cons_self _ _
      · exact List.mem_cons_of_mem _ (ih h1)

theorem facadeInv_consume_ok {sys sys' : Sys} (h : FacadeInv sys)
    (p : String) (producerId : Nat) (data : PTData)
    (hdata : lookupA p sys.server.facade.participantTransports = some data)
    (hmemP : producerId ∈ sys.server.facade.producers)
    (hfac : sys'.server.facade = { sys.server.facade with
        consumers := sys.server.facade.consumers
          ++ [(sys.server.facade.nextId, producerId)],
        participantTransports := setA p
          { data with
              consumers := setA producerId sys.server.facade.nextId
                data.consumers }
          sys.server.facade.participantTransports,
        nextId := sys.server.facade.nextId + 1 })
    (hrooms : sys'.server.rooms = sys.server.rooms)
    (hcurs : ∀ q, curOf sys' q = curOf sys q) : FacadeInv sys' := by
  refine ⟨?_, ?_, ?_, ?_, ?_, ?_, ?_, ?_, ?_, ?_, ?_⟩
  · intro q hq
    rw [hcurs]
    by_cases hqp : q = p
    · subst hqp
      exact h.pt_cur q (by rw [hdata]; rfl)
    · rw [hfac] at hq
      simp only [] at hq
      rw [lookupA_setA_ne _ _ hqp] at hq
      exact h.pt_cur q hq
  · rw [hfac]
    exact nodup_keys_setA _ _ _ h.nd_pt
  · rw [hfac]
    exact h.nd_prod
  · rw [hfac]
    simp only [List.map_append]
    refine List.Nodup.append h.nd_cons (List.nodup_singleton _) ?_
    intro c hc
    simp only [List.map_cons, List.map_nil, List.mem_singleton]
    intro he
    obtain ⟨cp, hcp, hfst⟩ := List.mem_map.1 hc
    obtain ⟨c1, P1⟩ := cp
    have hlt := h.fresh_cons c1 P1 hcp
    have hfst' : c1 = c := hfst
    rw [hfst', he] at hlt
    exact absurd hlt (lt_irrefl _)
  · intro P hP
    rw [hfac] at hP
    obtain ⟨q, ridq, Rq, recq, e1, e2, e3, e4⟩ := h.prod_wit P hP
    exact ⟨q, ridq, Rq, recq, by rw [hcurs]; exact e1,
      by rw [hrooms]; exact e2, e3, e4⟩
  · intro c P hc
    rw [hfac] at hc ⊢
    dsimp only at hc ⊢
    rcases List.mem_append.1 hc with hc | hc
    · rcases h.cons_wit c P hc with h1 | h1
      · exact Or.inl h1
      · obtain ⟨q, d, pr, hq, hpr⟩ := h1
        by_cases hqp : q = p
        · subst hqp
          have hdd : d = data := by
            rw [hq] at hdata
            exact Option.some.inj hdata
          rw [hdd] at hpr
          by_cases hpr2 : pr = producerId
          · have hPpr := h.link c P hc q data pr hdata hpr
            refine Or.inl ?_
            rw [hPpr, hpr2]
            exact hmemP
          · refine Or.inr ⟨q, _, pr, lookupA_setA_self _ _ _, ?_⟩
            exact mem_setA_of_ne hpr hpr2
        · exact Or.inr ⟨q, d, pr,
            by rw [lookupA_setA_ne _ _ hqp]; exact hq, hpr⟩
    · rw [List.mem_singleton] at hc
      cases hc
      exact Or.inl hmemP
  · intro c P hc q d pr hd hpr
    rw [hfac] at hc hd
    dsimp only at hc hd
    rcases List.mem_append.1 hc with hc | hc
    · by_cases hqp : q = p
      · subst hqp
        rw [lookupA_setA_self] at hd
        cases hd
        rcases mem_setA_subset hpr with h1 | h1
        · have : c = sys.server.facade.nextId := congrArg Prod.snd h1
          have hlt := h.fresh_cons c P hc
          rw [this] at hlt
          exact absurd hlt (lt_irrefl _)
        · exact h.link c P hc q data pr hdata h1
      · rw [lookupA_setA_ne _ _ hqp] at hd
        exact h.link c P hc q d pr hd hpr
    · rw [List.mem_singleton] at hc
      cases hc
      by_cases hqp : q = p
      · subst hqp
        rw [lookupA_setA_self] at hd
        cases hd
        rcases mem_setA_subset hpr with h1 | h1
        · exact (congrArg Prod.fst h1).symm
        · have := h.fresh_ptc q data hdata pr _ h1
          exact absurd this (lt_irrefl _)
      · rw [lookupA_setA_ne _ _ hqp] at hd
        have := h.fresh_ptc q d hd pr _ hpr
        exact absurd this (lt_irrefl _)
  · intro P hP
    rw [hfac] at hP ⊢
    exact Nat.lt_succ_of_lt (h.fresh_prod P hP)
  · intro r R₂ q rec₂ P h1 h2 h3
    rw [hfac]
    rw [hrooms] at h1
    exact Nat.lt_succ_of_lt (h.fresh_recP r R₂ q rec₂ P h1 h2 h3)
  · intro c P hc
    rw [hfac] at hc ⊢
    rcases List.mem_append.1 hc with hc | hc
    · exact Nat.lt_succ_of_lt (h.fresh_cons c P hc)
    · rw [List.mem_singleton] at hc
      cases hc
      exact Nat.lt_succ_self _
  · intro q d hd pr c hc
    rw [hfac] at hd ⊢
    by_cases hqp : q = p
    · subst hqp
      rw [lookupA_setA_self] at hd
      cases hd
      rcases mem_setA_subset hc with h1 | h1
      · have : c = sys.server.facade.nextId := congrArg Prod.snd h1
        rw [this]
        exact Nat.lt_succ_self _
      · exact Nat.lt_succ_of_lt (h.fresh_ptc q data hdata pr c h1)
    · rw [lookupA_setA_ne _ _ hqp] at hd
      exact Nat.lt_succ_of_lt (h.fresh_ptc q d hd pr c hc)

theorem facadeInv_leave {sys sys' : Sys} (h : FacadeInv sys)
    (h0 : RoomsInv sys) (p rid : String) (R : Room) (rec : PartRec)
    (hcur : curOf sys p = some rid)
    (hR : lookupA rid sys.server.rooms = some R)
    (hrec : lookupA p R = some rec)
    (hfac : sys'.server.facade
      = (match rec.producerId with
          | some P₀ => sys.server.facade.closeProducer P₀
          | none => sys.server.facade).removeParticipant p)
    (hrooms : sys'.server.rooms = setA rid (eraseA p R) sys.server.rooms)
    (hcurs : ∀ q, curOf sys' q = if q = p then none else curOf sys q) :
    FacadeInv sys' := by
  set f := sys.server.facade with hf
  set f₁ := (match rec.producerId with
    | some P₀ => f.closeProducer P₀
    | none => f) with hf₁def
  have hf₁pt : f₁.participantTransports = f.participantTransports := by
    rw [hf₁def]
    cases rec.producerId <;> rfl
  have hf₁next : f₁.nextId = f.nextId := by
    rw [hf₁def]
    cases rec.producerId <;> rfl
  have hf₁prod : ∀ P, P ∈ f₁.producers →
      P ∈ f.producers ∧ ∀ P₀, rec.producerId = some P₀ → P ≠ P₀ := by
    intro P hP
    rw [hf₁def] at hP
    cases hp : rec.producerId with
    | none =>
      rw [hp] at hP
      exact ⟨hP, fun P₀ he => absurd he (by simp)⟩
    | some P₀ =>
      rw [hp] at hP
      simp only [FacadeState.closeProducer, List.mem_filter,
        decide_eq_true_eq] at hP
      refine ⟨hP.1, fun P₀' he => ?_⟩
      cases he
      exact hP.2
  have hf₁prod_mem : ∀ P, P ∈ f.producers →
      (∀ P₀, rec.producerId = some P₀ → P ≠ P₀) → P ∈ f₁.producers := by
    intro P hP hne
    rw [hf₁def]
    cases hp : rec.producerId with
    | none => exact hP
    | some P₀ =>
      simp only [FacadeState.closeProducer, List.mem_filter,
        decide_eq_true_eq]
      exact ⟨hP, hne P₀ hp⟩
  have hf₁cons : ∀ c P, (c, P) ∈ f₁.consumers → (c, P) ∈ f.consumers := by
    intro c P hc
    rw [hf₁def] at hc
    cases hp : rec.producerId with
    | none =>
      rw [hp] at hc
      exact hc
    | some P₀ =>
      rw [hp] at hc
      simp only [FacadeState.closeProducer, List.mem_filter] at hc
      exact hc.1
  have hf₁cons_ne : ∀ c P, (c, P) ∈ f₁.consumers →
      ∀ P₀, rec.producerId = some P₀ → P ≠ P₀ := by
    intro c P hc P₀ hp
    rw [hf₁def, hp] at hc
    simp only [FacadeState.closeProducer, List.mem_filter,
      decide_eq_true_eq] at hc
    exact hc.2
  have hf₁cons_mem : ∀ c P, (c, P) ∈ f.consumers →
      (∀ P₀, rec.producerId = some P₀ → P ≠ P₀) → (c, P) ∈ f₁.consumers := by
    intro c P hc hne
    rw [hf₁def]
    cases hp : rec.producerId with
    | none => exact hc
    | some P₀ =>
      simp only [FacadeState.closeProducer, List.mem_filter,
        decide_eq_true_eq]
      exact ⟨hc, hne P₀ hp⟩
  have hf₁prodnd : f₁.producers.Nodup := by
    rw [hf₁def]
    cases rec.producerId with
    | none => exact h.nd_prod
    | some P₀ => exact h.nd_prod.filter _
  have hf₁consnd : (f₁.consumers.map Prod.fst).Nodup := by
    rw [hf₁def]
    cases rec.producerId with
    | none => exact h.nd_cons
    | some P₀ =>
      exact ((List.filter_sublist _).map Prod.fst).nodup h.nd_cons
  have hwitness_ne_p : ∀ P, (∀ P₀, rec.producerId = some P₀ → P ≠ P₀) →
      ∀ q ridq Rq recq, curOf sys q = some ridq →
        lookupA ridq sys.server.rooms = some Rq → lookupA q Rq = some recq →
        recq.producerId = some P → q ≠ p := by
    intro P hne q ridq Rq recq e1 e2 e3 e4 hqp
    subst hqp
    rw [hcur] at e1
    cases e1
    rw [hR] at e2
    cases e2
    rw [hrec] at e3
    cases e3
    exact hne P e4 rfl
  -- now the removeParticipant step
  cases hpt : lookupA p f.participantTransports with
  | none =>
    have hfeq : sys'.server.facade = f₁ := by
      rw [hfac, FacadeState.removeParticipant, hf₁pt, hpt]
    refine ⟨?_, ?_, ?_, ?_, ?_, ?_, ?_, ?_, ?_, ?_, ?_⟩
    · intro q hq
      rw [hfeq, hf₁pt] at hq
      rw [hcurs]
      by_cases hqp : q = p
      · subst hqp
        rw [hpt] at hq
        simp at hq
      · rw [if_neg hqp]
        exact h.pt_cur q hq
    · rw [hfeq, hf₁pt]
      exact h.nd_pt
    · rw [hfeq]
      exact hf₁prodnd
    · rw [hfeq]
      exact hf₁consnd
    · intro P hP
      rw [hfeq] at hP
      obtain ⟨hPf, hPne⟩ := hf₁prod P hP
      obtain ⟨q, ridq, Rq, recq, e1, e2, e3, e4⟩ := h.prod_wit P hPf
      have hqp : q ≠ p := hwitness_ne_p P hPne q ridq Rq recq e1 e2 e3 e4
      rw [hrooms]
      by_cases hr : ridq = rid
      · subst hr
        rw [hR] at e2
        cases e2
        exact ⟨q, ridq, _, recq, by rw [hcurs, if_neg hqp]; exact e1,
          lookupA_setA_self _ _ _,
          by rw [lookupA_eraseA_ne _ hqp]; exact e3, e4⟩
      · exact ⟨q, ridq, Rq, recq, by rw [hcurs, if_neg hqp]; exact e1,
          by rw [lookupA_setA_ne _ _ hr]; exact e2, e3, e4⟩
    · intro c P hc
      rw [hfeq] at hc ⊢
      have hcf := hf₁cons c P hc
      rcases h.cons_wit c P hcf with h1 | h1
      · exact Or.inl (hf₁prod_mem P h1 (hf₁cons_ne c P hc))
      · obtain ⟨q, d, pr, hq, hpr⟩ := h1
        by_cases hqp : q = p
        · subst hqp
          rw [hpt] at hq
          cases hq
        · exact Or.inr ⟨q, d, pr, by rw [hf₁pt]; exact hq, hpr⟩
    · intro c P hc q d pr hd hpr
      rw [hfeq] at hc hd
      rw [hf₁pt] at hd
      exact h.link c P (hf₁cons c P hc) q d pr hd hpr
    · intro P hP
      rw [hfeq, hf₁next]
      exact h.fresh_prod P (hf₁prod P (by rw [← hfeq]; exact hP)).1
    · intro r R₂ q rec₂ P h1 h2 h3
      rw [hfeq, hf₁next]
      rw [hrooms] at h1
      by_cases hr : r = rid
      · subst hr
        rw [lookupA_setA_self] at h1
        cases h1
        by_cases hqp : q = p
        · subst hqp
          rw [lookupA_eraseA_self _ _ (h0.ndM r R hR)] at h2
          cases h2
        · rw [lookupA_eraseA_ne _ hqp] at h2
          exact h.fresh_recP r R q rec₂ P hR h2 h3
      · rw [lookupA_setA_ne _ _ hr] at h1
        exact h.fresh_recP r R₂ q rec₂ P h1 h2 h3
    · intro c P hc
      rw [hfeq, hf₁next]
      exact h.fresh_cons c P (hf₁cons c P (by rw [← hfeq]; exact hc))
    · intro q d hd pr c hc
      rw [hfeq, hf₁next]
      rw [hfeq, hf₁pt] at hd
      exact h.fresh_ptc q d hd pr c hc
  | some data =>
    have hfeq : sys'.server.facade = { f₁ with
        consumers := f₁.consumers.filter
          (fun cp => cp.1 ∉ data.consumers.map Prod.snd),
        participantTransports := eraseA p f₁.participantTransports } := by
      rw [hfac, FacadeState.removeParticipant, hf₁pt, hpt]
    have hpt2 : sys'.server.facade.participantTransports
        = eraseA p f.participantTransports := by
      rw [hfeq]
      dsimp only
      rw [hf₁pt]
    have hcons2 : ∀ c P, (c, P) ∈ sys'.server.facade.consumers →
        (c, P) ∈ f₁.consumers ∧ c ∉ data.consumers.map Prod.snd := by
      intro c P hc
      rw [hfeq] at hc
      simp only [List.mem_filter, decide_eq_true_eq] at hc
      exact hc
    refine ⟨?_, ?_, ?_, ?_, ?_, ?_, ?_, ?_, ?_, ?_, ?_⟩
    · intro q hq
      rw [hpt2] at hq
      rw [hcurs]
      by_cases hqp : q = p
      · subst hqp
        rw [lookupA_eraseA_self _ _ h.nd_pt] at hq
        simp at hq
      · rw [if_neg hqp]
        rw [lookupA_eraseA_ne _ hqp] at hq
        exact h.pt_cur q hq
    · rw [hpt2]
      exact nodup_keys_eraseA _ _ h.nd_pt
    · rw [hfeq]
      exact hf₁prodnd
    · rw [hfeq]
      exact ((List.filter_sublist _).map Prod.fst).nodup hf₁consnd
    · intro P hP
      rw [hfeq] at hP
      obtain ⟨hPf, hPne⟩ := hf₁prod P hP
      obtain ⟨q, ridq, Rq, recq, e1, e2, e3, e4⟩ := h.prod_wit P hPf
      have hqp : q ≠ p := hwitness_ne_p P hPne q ridq Rq recq e1 e2 e3 e4
      rw [hrooms]
      by_cases hr : ridq = rid
      · subst hr
        rw [hR] at e2
        cases e2
        exact ⟨q, ridq, _, recq, by rw [hcurs, if_neg hqp]; exact e1,
          lookupA_setA_self _ _ _,
          by rw [lookupA_eraseA_ne _ hqp]; exact e3, e4⟩
      · exact ⟨q, ridq, Rq, recq, by rw [hcurs, if_neg hqp]; exact e1,
          by rw [lookupA_setA_ne _ _ hr]; exact e2, e3, e4⟩
    · intro c P hc
      obtain ⟨hc1, hcnot⟩ := hcons2 c P hc
      have hcf := hf₁cons c P hc1
      rcases h.cons_wit c P hcf with h1 | h1
      · refine Or.inl ?_
        rw [hfeq]
        exact hf₁prod_mem P h1 (hf₁cons_ne c P hc1)
      · obtain ⟨q, d, pr, hq, hpr⟩ := h1
        by_cases hqp : q = p
        · subst hqp
          rw [hpt] at hq
          cases hq
          exact absurd (List.mem_map.2 ⟨(pr, c), hpr, rfl⟩) hcnot
        · refine Or.inr ⟨q, d, pr, ?_, hpr⟩
          rw [hpt2, lookupA_eraseA_ne _ hqp]
          exact hq
    · intro c P hc q d pr hd hpr
      obtain ⟨hc1, _⟩ := hcons2 c P hc
      rw [hpt2] at hd
      by_cases hqp : q = p
      · subst hqp
        rw [lookupA_eraseA_self _ _ h.nd_pt] at hd
        cases hd
      · rw [lookupA_eraseA_ne _ hqp] at hd
        exact h.link c P (hf₁cons c P hc1) q d pr hd hpr
    · intro P hP
      rw [hfeq] at hP ⊢
      rw [hf₁next]
      exact h.fresh_prod P (hf₁prod P hP).1
    · intro r R₂ q rec₂ P h1 h2 h3
      rw [hfeq]
      dsimp only
      rw [hf₁next]
      rw [hrooms] at h1
      by_cases hr : r = rid
      · subst hr
        rw [lookupA_setA_self] at h1
        cases h1
        by_cases hqp : q = p
        · subst hqp
          rw [lookupA_eraseA_self _ _ (h0.ndM r R hR)] at h2
          cases h2
        · rw [lookupA_eraseA_ne _ hqp] at h2
          exact h.fresh_recP r R q rec₂ P hR h2 h3
      · rw [lookupA_setA_ne _ _ hr] at h1
        exact h.fresh_recP r R₂ q rec₂ P h1 h2 h3
    · intro c P hc
      obtain ⟨hc1, _⟩ := hcons2 c P hc
      rw [hfeq]
      dsimp only
      rw [hf₁next]
      exact h.fresh_cons c P (hf₁cons c P hc1)
    · intro q d hd pr c hc
      rw [hpt2] at hd
      rw [hfeq]
      dsimp only
      rw [hf₁next]
      by_cases hqp : q = p
      · subst hqp
        rw [lookupA_eraseA_self _ _ h.nd_pt] at hd
        cases hd
      · rw [lookupA_eraseA_ne _ hqp] at hd
        exact h.fresh_ptc q d hd pr c hc

/-- `handleLeave` always clears the session's current room. -/
theorem handleLeave_cur_none (s : ServerState) (cur : Option String)
    (pid : String) : (handleLeave s cur pid).cur = none := by
  cases cur with
  | none => rfl
  | some rid =>
    simp only [handleLeave]
    cases lookupA pid ((lookupA rid s.rooms).getD []) <;> rfl

/-- The trace discipline for claim C3: the C4 join discipline, plus a
session only produces while its room record holds no producer (the
coordinator overwrites `record.producerId` on a second produce, orphaning
the first producer; claim C3's counterexample shows the restriction is
necessary). -/
def allowedF (sys : Sys) : Ev → Bool
  | .msg p (.join roomId caps) => allowedJoin sys p roomId caps
  | .msg p (.produce _) =>
    match curOf sys p with
    | none => true
    | some rid =>
      (((lookupA p ((lookupA rid sys.server.rooms).getD [])).getD
        ⟨none, false, false⟩).producerId).isNone
  | _ => true

theorem allowedF_imp_allowedJ {sys : Sys} {ev : Ev}
    (h : allowedF sys ev = true) : allowedJ sys ev = true := by
  cases ev with
  | close p => rfl
  | msg p c => cases c <;> first | exact h | rfl

theorem facLog_preserve {sys : Sys} (hf : FacadeInv sys) (hl : LogInv sys)
    (p : String) (r : HRes)
    (hstate : r.state = sys.server) (hcur : r.cur = curOf sys p)
    (hno : ∀ q, FCall.createTransport q ∉ r.calls) :
    FacadeInv (applyH sys p r) ∧ LogInv (applyH sys p r) := by
  have hcurs : ∀ q, curOf (applyH sys p r) q = curOf sys q := by
    intro q
    by_cases hq : q = p
    · subst hq
      rw [curOf_applyH_self, hcur]
    · exact curOf_applyH_ne sys r hq
  refine ⟨facadeInv_congr hf ?_ ?_ hcurs,
    logInv_extend hl hcurs r.calls rfl hno⟩
  · show r.state.facade = sys.server.facade
    rw [hstate]
  · show r.state.rooms = sys.server.rooms
    rw [hstate]

theorem facLog_record {sys : Sys} (hf : FacadeInv sys) (hl : LogInv sys)
    (p rid : String) (R : Room) (rec v : PartRec)
    (hcur : curOf sys p = some rid)
    (hR : lookupA rid sys.server.rooms = some R)
    (hrec : lookupA p R = some rec)
    (hprod : v.producerId = rec.producerId) (r : HRes)
    (hstate : r.state = { sys.server with
        rooms := setA rid (setA p v R) sys.server.rooms })
    (hrcur : r.cur = some rid) (hcalls : r.calls = []) :
    FacadeInv (applyH sys p r) ∧ LogInv (applyH sys p r) := by
  have hcurs : ∀ q, curOf (applyH sys p r) q = curOf sys q := by
    intro q
    by_cases hq : q = p
    · subst hq
      rw [curOf_applyH_self, hrcur, hcur]
    · exact curOf_applyH_ne sys r hq
  refine ⟨facadeInv_record_update hf p rid R rec v hcur hR hrec hprod ?_ ?_
      hcurs,
    logInv_extend hl hcurs r.calls rfl (by rw [hcalls]; intro q; simp)⟩
  · show r.state.rooms = _
    rw [hstate]
  · show r.state.facade = _
    rw [hstate]

theorem facLog_leave_some {sys : Sys} (h : GoodF sys) (p rid : String)
    (R : Room) (rec : PartRec)
    (hc : curOf sys p = some rid)
    (hR : lookupA rid sys.server.rooms = some R)
    (hrec : lookupA p R = some rec) (r : HRes)
    (hstate : r.state = { sys.server with
        rooms := setA rid (eraseA p R) sys.server.rooms,
        facade := (match rec.producerId with
          | some P => sys.server.facade.closeProducer P
          | none => sys.server.facade).removeParticipant p })
    (hrcur : r.cur = none)
    (hcalls : r.calls = (match rec.producerId with
        | some P => [FCall.closeProducer P]
        | none => []) ++ [FCall.removeParticipant p]) :
    FacadeInv (applyH sys p r) ∧ LogInv (applyH sys p r) := by
  have hcurs : ∀ q, curOf (applyH sys p r) q
      = if q = p then none else curOf sys q := by
    intro q
    by_cases hq : q = p
    · subst hq
      rw [curOf_applyH_self, hrcur, if_pos rfl]
    · rw [curOf_applyH_ne sys r hq, if_neg hq]
  constructor
  · refine facadeInv_leave h.fac h.rooms p rid R rec hc hR hrec ?_ ?_ hcurs
    · show r.state.facade = _
      rw [hstate]
    · show r.state.rooms = _
      rw [hstate]
  · refine ⟨?_, ?_⟩
    · intro q hq
      rw [hcurs] at hq
      by_cases hqp : q = p
      · rw [if_pos hqp] at hq
        exact absurd rfl hq
      · rw [if_neg hqp] at hq
        show _ ∈ sys.log ++ r.calls
        exact List.mem_append_left _ (h.log.cur_logged q hq)
    · intro q hq
      have hq' : FCall.createTransport q ∈ sys.log ++ r.calls := hq
      rcases List.mem_append.1 hq' with h1 | h1
      · rcases h.log.removed_logged q h1 with h2 | h2
        · by_cases hqp : q = p
          · subst hqp
            refine Or.inr ?_
            show _ ∈ sys.log ++ r.calls
            refine List.mem_append_right _ ?_
            rw [hcalls]
            exact List.mem_append_right _ (List.mem_singleton.2 rfl)
          · exact Or.inl (by rw [hcurs, if_neg hqp]; exact h2)
        · exact Or.inr
            (show _ ∈ sys.log ++ r.calls from List.mem_append_left _ h2)
      · rw [hcalls] at h1
        rcases List.mem_append.1 h1 with h2 | h2
        · cases hp : rec.producerId with
          | none =>
            rw [hp] at h2
            simp at h2
          | some P =>
            rw [hp] at h2
            simp at h2
        · simp at h2

theorem facLog_leave {sys : Sys} (h : GoodF sys) (p : String) :
    FacadeInv (applyH sys p (handleLeave sys.server (curOf sys p) p)) ∧
    LogInv (applyH sys p (handleLeave sys.server (curOf sys p) p)) := by
  cases hc : curOf sys p with
  | none =>
    exact facLog_preserve h.fac h.log p _ rfl hc.symm
      (by intro q; simp [handleLeave])
  | some rid =>
    obtain ⟨R, hR, hmem⟩ := h.rooms.curMem p rid hc
    obtain ⟨rec, hrec⟩ := Option.isSome_iff_exists.1 hmem
    rw [handleLeave_eq sys.server rid p R rec hR hrec]
    exact facLog_leave_some h p rid R rec hc hR hrec _ rfl rfl rfl

theorem facLog_join_first {sys : Sys} (h : GoodF sys) (p rid : String)
    (R₁ : Room)
    (hc : curOf sys p = none)
    (hR₁ : lookupA rid (getOrCreate sys.server.rooms rid) = some R₁)
    (r : HRes)
    (hstate : r.state = { sys.server with
        rooms := setA rid (setA p ⟨none, false, false⟩ R₁)
          (getOrCreate sys.server.rooms rid),
        facade := (sys.server.facade.createTransport p).1 })
    (hrcur : r.cur = some rid)
    (hcalls : r.calls = [FCall.createTransport p]) :
    FacadeInv (applyH sys p r) ∧ LogInv (applyH sys p r) := by
  have hcurs : ∀ q, curOf (applyH sys p r) q
      = if q = p then some rid else curOf sys q := by
    intro q
    by_cases hq : q = p
    · subst hq
      rw [curOf_applyH_self, hrcur, if_pos rfl]
    · rw [curOf_applyH_ne sys r hq, if_neg hq]
  constructor
  · refine facadeInv_createTransport h.fac p rid R₁ hc hR₁ ?_ ?_ hcurs
    · show r.state.rooms = _
      rw [hstate]
    · show r.state.facade = _
      rw [hstate]
  · refine ⟨?_, ?_⟩
    · intro q hq
      show _ ∈ sys.log ++ r.calls
      by_cases hqp : q = p
      · subst hqp
        refine List.mem_append_right _ ?_
        rw [hcalls]
        exact List.mem_singleton.2 rfl
      · rw [hcurs, if_neg hqp] at hq
        exact List.mem_append_left _ (h.log.cur_logged q hq)
    · intro q hq
      have hq' : FCall.createTransport q ∈ sys.log ++ r.calls := hq
      rcases List.mem_append.1 hq' with h1 | h1
      · rcases h.log.removed_logged q h1 with h2 | h2
        · refine Or.inl ?_
          rw [hcurs]
          by_cases hqp : q = p
          · rw [if_pos hqp]
            simp
          · rw [if_neg hqp]
            exact h2
        · exact Or.inr
            (show _ ∈ sys.log ++ r.calls from List.mem_append_left _ h2)
      · rw [hcalls, List.mem_singleton] at h1
        injection h1 with hqp
        refine Or.inl ?_
        rw [hcurs, if_pos hqp]
        simp

theorem facLog_produce {sys : Sys} (h : GoodF sys) (p rid : String)
    (R : Room) (rec : PartRec) (tid : Nat)
    (hc : curOf sys p = some rid)
    (hR : lookupA rid sys.server.rooms = some R)
    (hrec : lookupA p R = some rec)
    (hnone : rec.producerId = none)
    (r : HRes)
    (hstate : r.state = { sys.server with
        rooms := setA rid
          (setA p { rec with producerId := some sys.server.facade.nextId } R)
          sys.server.rooms,
        facade := { sys.server.facade with
          producers := sys.server.facade.producers
            ++ [sys.server.facade.nextId],
          nextId := sys.server.facade.nextId + 1 } })
    (hrcur : r.cur = some rid)
    (hcalls : r.calls = [FCall.produceCall tid]) :
    FacadeInv (applyH sys p r) ∧ LogInv (applyH sys p r) := by
  have hcurs : ∀ q, curOf (applyH sys p r) q = curOf sys q := by
    intro q
    by_cases hq : q = p
    · subst hq
      rw [curOf_applyH_self, hrcur, hc]
    · exact curOf_applyH_ne sys r hq
  refine ⟨facadeInv_produce_ok h.fac p rid R rec hc hR hrec hnone ?_ ?_ hcurs,
    logInv_extend h.log hcurs r.calls rfl (by rw [hcalls]; intro q; simp)⟩
  · show r.state.rooms = _
    rw [hstate]
  · show r.state.facade = _
    rw [hstate]

theorem facLog_consume {sys : Sys} (h : GoodF sys) (p rid : String)
    (producerId : Nat) (data : PTData)
    (hc : curOf sys p = some rid)
    (hdata : lookupA p
        ((sys.server.facade.createConsumerTransport p).1).participantTransports
      = some data)
    (hmemP : producerId
      ∈ ((sys.server.facade.createConsumerTransport p).1).producers)
    (r : HRes)
    (hstate : r.state = { sys.server with
        facade :=
          { (sys.server.facade.createConsumerTransport p).1 with
            consumers :=
              ((sys.server.facade.createConsumerTransport p).1).consumers
              ++ [(((sys.server.facade.createConsumerTransport p).1).nextId,
                    producerId)],
            participantTransports := setA p
              { data with
                  consumers := setA producerId
                    ((sys.server.facade.createConsumerTransport p).1).nextId
                    data.consumers }
              ((sys.server.facade.createConsumerTransport
                  p).1).participantTransports,
            nextId :=
              ((sys.server.facade.createConsumerTransport p).1).nextId
                + 1 } })
    (hrcur : r.cur = some rid)
    (hcalls : r.calls
      = [FCall.createConsumerTransport p, FCall.consumeCall p producerId]) :
    FacadeInv (applyH sys p r) ∧ LogInv (applyH sys p r) := by
  have hcurs : ∀ q, curOf (applyH sys p r) q = curOf sys q := by
    intro q
    by_cases hq : q = p
    · subst hq
      rw [curOf_applyH_self, hrcur, hc]
    · exact curOf_applyH_ne sys r hq
  have hmid : FacadeInv
      { server := { sys.server with
          facade := (sys.server.facade.createConsumerTransport p).1 },
        curs := sys.curs, sent := sys.sent, log := sys.log } := by
    refine facadeInv_createConsumerTransport h.fac p ?_ rfl rfl (fun q => rfl)
    rw [hc]
    simp
  refine ⟨facadeInv_consume_ok hmid p producerId data hdata hmemP ?_ ?_ ?_,
    logInv_extend h.log hcurs r.calls rfl (by rw [hcalls]; intro q; simp)⟩
  · show r.state.facade = _
    rw [hstate]
  · show r.state.rooms = _
    rw [hstate]
  · intro q
    rw [hcurs]
    rfl

theorem facLog_cct {sys : Sys} (h : GoodF sys) (p rid : String)
    (hc : curOf sys p = some rid) (r : HRes)
    (hstate : r.state = { sys.server with
        facade := (sys.server.facade.createConsumerTransport p).1 })
    (hrcur : r.cur = some rid)
    (hno : ∀ q, FCall.createTransport q ∉ r.calls) :
    FacadeInv (applyH sys p r) ∧ LogInv (applyH sys p r) := by
  have hcurs : ∀ q, curOf (applyH sys p r) q = curOf sys q := by
    intro q
    by_cases hq : q = p
    · subst hq
      rw [curOf_applyH_self, hrcur, hc]
    · exact curOf_applyH_ne sys r hq
  refine ⟨facadeInv_createConsumerTransport h.fac p (by rw [hc]; simp)
      ?_ ?_ hcurs,
    logInv_extend h.log hcurs r.calls rfl hno⟩
  · show r.state.facade = _
    rw [hstate]
  · show r.state.rooms = _
    rw [hstate]

theorem facLog_step {sys : Sys} (h : GoodF sys) (ev : Ev)
    (ha : allowedF sys ev = true) :
    FacadeInv (stepEv sys ev) ∧ LogInv (stepEv sys ev) := by
  cases ev with
  | close p => exact facLog_leave h p
  | msg p c =>
    cases c with
    | leave => exact facLog_leave h p
    | join roomId caps =>
      show FacadeInv (applyH sys p
          (handleJoin sys.server (curOf sys p) p roomId caps)) ∧
        LogInv (applyH sys p
          (handleJoin sys.server (curOf sys p) p roomId caps))
      have hg : RoomsOk (getOrCreate sys.server.rooms (normRoom roomId))
          sys.curs := roomsOk_getOrCreate h.rooms (normRoom roomId)
      obtain ⟨R₁, hR₁, hR₁src⟩ :=
        lookupA_getOrCreate sys.server.rooms (normRoom roomId)
      cases hc : curOf sys p with
      | none =>
        have hnm : lookupA p R₁ = none :=
          roomsOk_not_in_any hg p hc (normRoom roomId) R₁ hR₁
        rw [handleJoin_first sys.server none p roomId caps
          (Or.inr (by rw [hR₁, Option.getD_some]; exact hnm))]
        rw [hR₁, Option.getD_some]
        refine facLog_join_first h p (normRoom roomId) R₁ hc hR₁ _ ?_ ?_ ?_
          <;> rfl
      | some r =>
        simp only [allowedF, allowedJoin, hc, Bool.and_eq_true,
          beq_iff_eq] at ha
        obtain ⟨hcaps, hrid⟩ := ha
        subst hcaps
        obtain ⟨R, hR, hmem⟩ := h.rooms.curMem p r hc
        have hRg : lookupA (normRoom roomId)
            (getOrCreate sys.server.rooms (normRoom roomId)) = some R := by
          rw [hrid]
          unfold getOrCreate
          rw [hR]
          simp [hR]
        obtain ⟨prec, hprec⟩ := Option.isSome_iff_exists.1 hmem
        rw [handleJoin_second sys.server (some r) p roomId R prec hRg hprec]
        have hgoc : getOrCreate sys.server.rooms (normRoom roomId)
            = sys.server.rooms := by
          rw [hrid]
          unfold getOrCreate
          rw [hR]
          simp
        rw [hgoc, hrid]
        refine facLog_record h.fac h.log p r R prec
          { prec with rtpCapabilities := true } hc hR hprec rfl _ ?_ ?_ ?_
          <;> rfl
    | produce tid =>
      show FacadeInv (applyH sys p
          (handleProduce sys.server (curOf sys p) p tid)) ∧
        LogInv (applyH sys p
          (handleProduce sys.server (curOf sys p) p tid))
      cases hc : curOf sys p with
      | none =>
        refine facLog_preserve h.fac h.log p _ ?_ ?_ ?_
        · rfl
        · exact hc.symm
        · intro q
          simp [handleProduce]
      | some rid =>
        cases hp : sys.server.facade.produce tid with
        | error e =>
          rw [handleProduce_error sys.server rid p tid hp]
          refine facLog_preserve h.fac h.log p _ ?_ ?_ ?_
          · rfl
          · exact hc.symm
          · intro q
            simp
        | ok fp =>
          obtain ⟨R, hR, hmem⟩ := h.rooms.curMem p rid hc
          obtain ⟨rec, hrec⟩ := Option.isSome_iff_exists.1 hmem
          have hnone : rec.producerId = none := by
            simp only [allowedF, hc, hR, Option.getD_some, hrec,
              Option.isNone_iff_eq_none] at ha
            exact ha
          rw [handleProduce_ok sys.server rid p tid hp hR hrec,
            produce_ok_eq hp]
          refine facLog_produce h p rid R rec tid hc hR hrec hnone _ ?_ ?_ ?_
            <;> rfl
    | requestConsume producerId capsOk mpid =>
      show FacadeInv (applyH sys p (handleConsume sys.server (curOf sys p) p
          producerId capsOk mpid)) ∧
        LogInv (applyH sys p (handleConsume sys.server (curOf sys p) p
          producerId capsOk mpid))
      cases hc : curOf sys p with
      | none =>
        refine facLog_preserve h.fac h.log p _ ?_ ?_ ?_
        · rfl
        · exact hc.symm
        · intro q
          simp [handleConsume]
      | some rid =>
        cases hcon : (sys.server.facade.createConsumerTransport p).1.consume p
            producerId capsOk with
        | error e =>
          rw [handleConsume_error sys.server rid p producerId capsOk mpid hcon]
          refine facLog_cct h p rid hc _ ?_ ?_ ?_
          · rfl
          · rfl
          · intro q
            simp
        | ok fc =>
          obtain ⟨data, hdata, hPC, hfc⟩ := consume_ok_eq hcon
          rw [handleConsume_ok sys.server rid p producerId capsOk mpid hcon,
            hfc]
          refine facLog_consume h p rid producerId data hc hdata hPC.1 _
            ?_ ?_ ?_ <;> rfl
    | participantKilled killed =>
      show FacadeInv (applyH sys p
          (handleKilled sys.server (curOf sys p) p killed)) ∧
        LogInv (applyH sys p
          (handleKilled sys.server (curOf sys p) p killed))
      cases hc : curOf sys p with
      | none =>
        refine facLog_preserve h.fac h.log p _ ?_ ?_ ?_
        · rfl
        · exact hc.symm
        · intro q
          simp [handleKilled]
      | some rid =>
        obtain ⟨R, hR, hmem⟩ := h.rooms.curMem p rid hc
        obtain ⟨rec, hrec⟩ := Option.isSome_iff_exists.1 hmem
        rw [handleKilled_mem sys.server rid p killed hR hrec]
        refine facLog_record h.fac h.log p rid R rec
          { rec with isKilled := killed } hc hR hrec rfl _ ?_ ?_ ?_ <;> rfl
    | nicknameChange nickname =>
      show FacadeInv (applyH sys p
          (handleNickname sys.server (curOf sys p) p nickname)) ∧
        LogInv (applyH sys p
          (handleNickname sys.server (curOf sys p) p nickname))
      cases hc : curOf sys p with
      | none =>
        refine facLog_preserve h.fac h.log p _ ?_ ?_ ?_
        · rfl
        · exact hc.symm
        · intro q
          simp [handleNickname]
      | some rid =>
        refine facLog_preserve h.fac h.log p _ ?_ ?_ ?_
        · rfl
        · exact hc.symm
        · intro q
          simp [handleNickname]
    | connectTransport tid =>
      show FacadeInv (applyH sys p (handleMessage sys.server (curOf sys p) p
          (CMsg.connectTransport tid))) ∧
        LogInv (applyH sys p (handleMessage sys.server (curOf sys p) p
          (CMsg.connectTransport tid)))
      by_cases hok : sys.server.facade.connectTransportOk tid = true
      · rw [show handleMessage sys.server (curOf sys p) p
            (CMsg.connectTransport tid)
            = ⟨sys.server, curOf sys p, [], [FCall.connectTransport tid]⟩ from
          by simp [handleMessage, hok]]
        refine facLog_preserve h.fac h.log p _ ?_ ?_ ?_
        · rfl
        · rfl
        · intro q
          simp
      · rw [show handleMessage sys.server (curOf sys p) p
            (CMsg.connectTransport tid)
            = ⟨sys.server, curOf sys p,
                [(p, SMsg.errorMsg "Failed to process request")],
                [FCall.connectTransport tid]⟩ from
          by simp [handleMessage, hok]]
        refine facLog_preserve h.fac h.log p _ ?_ ?_ ?_
        · rfl
        · rfl
        · intro q
          simp
    | ping =>
      show FacadeInv (applyH sys p
          (handleMessage sys.server (curOf sys p) p CMsg.ping)) ∧
        LogInv (applyH sys p
          (handleMessage sys.server (curOf sys p) p CMsg.ping))
      refine facLog_preserve h.fac h.log p _ ?_ ?_ ?_
      · rfl
      · rfl
      · intro q
        simp [handleMessage]
    | unknown ty =>
      show FacadeInv (applyH sys p
          (handleMessage sys.server (curOf sys p) p (CMsg.unknown ty))) ∧
        LogInv (applyH sys p
          (handleMessage sys.server (curOf sys p) p (CMsg.unknown ty)))
      refine facLog_preserve h.fac h.log p _ ?_ ?_ ?_
      · rfl
      · rfl
      · intro q
        simp [handleMessage]
    | malformed =>
      show FacadeInv (applyH sys p
          (handleMessage sys.server (curOf sys p) p CMsg.malformed)) ∧
        LogInv (applyH sys p
          (handleMessage sys.server (curOf sys p) p CMsg.malformed))
      refine facLog_preserve h.fac h.log p _ ?_ ?_ ?_
      · rfl
      · rfl
      · intro q
        simp [handleMessage]

theorem goodF_step {sys : Sys} (h : GoodF sys) (ev : Ev)
    (ha : allowedF sys ev = true) : GoodF (stepEv sys ev) :=
  ⟨roomsInv_step sys ev h.rooms (allowedF_imp_allowedJ ha),
   (facLog_step h ev ha).1, (facLog_step h ev ha).2⟩

theorem goodF_run {sys : Sys} (h : GoodF sys) (evs : List Ev)
    (hwf : WFrun allowedF sys evs = true) : GoodF (run sys evs) := by
  induction evs generalizing sys with
  | nil => exact h
  | cons ev rest ih =>
    simp only [WFrun, Bool.and_eq_true] at hwf
    exact ih (goodF_step h ev hwf.1) hwf.2

theorem goodF_sys0 : GoodF sys0 := by
  refine ⟨roomsInv_sys0, ?_, ?_⟩
  · refine ⟨?_, ?_, ?_, ?_, ?_, ?_, ?_, ?_, ?_, ?_, ?_⟩
    · intro p hp
      simp [sys0, lookupA] at hp
    · simp [sys0]
    · simp [sys0]
    · simp [sys0]
    · intro P hP
      simp [sys0] at hP
    · intro c P hc
      simp [sys0] at hc
    · intro c P hc
      simp [sys0] at hc
    · intro P hP
      simp [sys0] at hP
    · intro r R q rec P h1 h2 h3
      simp only [sys0, lookupA] at h1
      by_cases hdr : "default-room" = r <;> simp [hdr] at h1
      subst h1
      simp [lookupA] at h2
    · intro c P hc
      simp [sys0] at hc
    · intro q d hd
      simp [sys0, lookupA] at hd
  · refine ⟨?_, ?_⟩
    · intro p hp
      simp [sys0, curOf, lookupA] at hp
    · intro p hp
      simp [sys0] at hp

theorem WFrun_append (allowed : Sys → Ev → Bool) (sys : Sys)
    (l₁ l₂ : List Ev) :
    WFrun allowed sys (l₁ ++ l₂)
      = (WFrun allowed sys l₁ && WFrun allowed (run sys l₁) l₂) := by
  induction l₁ generalizing sys with
  | nil => simp [WFrun, run]
  | cons e tl ih =>
    show (allowed sys e && WFrun allowed (stepEv sys e) (tl ++ l₂))
      = ((allowed sys e && WFrun allowed (stepEv sys e) tl)
          && WFrun allowed (run (stepEv sys e) tl) l₂)
    rw [ih, Bool.and_assoc]

theorem allowedF_close (sys : Sys) (p : String) :
    allowedF sys (Ev.close p) = true := rfl

theorem WFrun_closes (sys : Sys) (evs : List Ev) :
    WFrun allowedF sys (closesOf evs) = true := by
  induction evs generalizing sys with
  | nil => rfl
  | cons e tl ih =>
    show (allowedF sys (Ev.close e.pid)
        && WFrun allowedF (stepEv sys (Ev.close e.pid)) (closesOf tl)) = true
    rw [allowedF_close, ih]
    rfl

theorem curOf_stepEv_close_self (sys : Sys) (p : String) :
    curOf (stepEv sys (Ev.close p)) p = none := by
  show curOf (applyH sys p (handleLeave sys.server (curOf sys p) p)) p = none
  rw [curOf_applyH_self, handleLeave_cur_none]

theorem curOf_stepEv_ne (sys : Sys) (e : Ev) {q : String}
    (h : q ≠ e.pid) : curOf (stepEv sys e) q = curOf sys q := by
  cases e with
  | msg p c => exact curOf_applyH_ne sys _ h
  | close p => exact curOf_applyH_ne sys _ h

theorem closes_cur_none (evs : List Ev) : ∀ (sys : Sys) (q : String),
    (q ∈ evs.map Ev.pid ∨ curOf sys q = none) →
    curOf (run sys (closesOf evs)) q = none := by
  induction evs with
  | nil =>
    intro sys q hq
    rcases hq with hq | hq
    · simp at hq
    · exact hq
  | cons e tl ih =>
    intro sys q hq
    show curOf (run (stepEv sys (Ev.close e.pid)) (closesOf tl)) q = none
    refine ih _ q ?_
    by_cases hqe : q = e.pid
    · subst hqe
      exact Or.inr (curOf_stepEv_close_self sys e.pid)
    · rcases hq with hq | hq
      · rcases List.mem_cons.1 hq with h1 | h1
        · exact absurd h1 hqe
        · exact Or.inl h1
      · refine Or.inr ?_
        rw [curOf_stepEv_ne sys (Ev.close e.pid) hqe]
        exact hq

theorem curOf_run_not_mem (evs : List Ev) : ∀ (sys : Sys) (q : String),
    q ∉ evs.map Ev.pid → curOf (run sys evs) q = curOf sys q := by
  induction evs with
  | nil =>
    intro sys q _
    rfl
  | cons e tl ih =>
    intro sys q hq
    simp only [List.map_cons, List.mem_cons, not_or] at hq
    show curOf (run (stepEv sys e) tl) q = curOf sys q
    rw [ih _ q hq.2, curOf_stepEv_ne sys e hq.1]

theorem final_cur_none (evs : List Ev) (q : String) :
    curOf (run sys0 (evs ++ closesOf evs)) q = none := by
  rw [run_append]
  refine closes_cur_none evs _ q ?_
  by_cases hm : q ∈ evs.map Ev.pid
  · exact Or.inl hm
  · refine Or.inr ?_
    rw [curOf_run_not_mem evs _ q hm]
    rfl

theorem join_logged_step {sys : Sys} (h : GoodF sys) (p : String)
    (roomId : Option String) (caps : Bool) :
    FCall.createTransport p
      ∈ (stepEv sys (Ev.msg p (CMsg.join roomId caps))).log := by
  show FCall.createTransport p ∈ (applyH sys p
    (handleJoin sys.server (curOf sys p) p roomId caps)).log
  cases hc : curOf sys p with
  | some r =>
    exact List.mem_append_left _ (h.log.cur_logged p (by rw [hc]; simp))
  | none =>
    have hg : RoomsOk (getOrCreate sys.server.rooms (normRoom roomId))
        sys.curs := roomsOk_getOrCreate h.rooms (normRoom roomId)
    obtain ⟨R₁, hR₁, hR₁src⟩ :=
      lookupA_getOrCreate sys.server.rooms (normRoom roomId)
    have hnm : lookupA p R₁ = none :=
      roomsOk_not_in_any hg p hc (normRoom roomId) R₁ hR₁
    rw [handleJoin_first sys.server none p roomId caps
      (Or.inr (by rw [hR₁, Option.getD_some]; exact hnm))]
    exact List.mem_append_right _ (List.mem_singleton.2 rfl)

theorem joins_logged (evs : List Ev) : ∀ (sys : Sys), GoodF sys →
    WFrun allowedF sys evs = true →
    ∀ p roomId caps, Ev.msg p (CMsg.join roomId caps) ∈ evs →
    FCall.createTransport p ∈ (run sys evs).log := by
  induction evs with
  | nil =>
    intro sys _ _ p roomId caps hmem
    simp at hmem
  | cons e tl ih =>
    intro sys hg hwf p roomId caps hmem
    simp only [WFrun, Bool.and_eq_true] at hwf
    show FCall.createTransport p ∈ (run (stepEv sys e) tl).log
    rcases List.mem_cons.1 hmem with h1 | h1
    · subst h1
      exact log_mono_run (join_logged_step hg p roomId caps)
    · exact ih (stepEv sys e) (goodF_step hg e hwf.1) hwf.2 p roomId caps h1

theorem facade_empty_of_no_cur {sys : Sys} (h : FacadeInv sys)
    (hnone : ∀ q, curOf sys q = none) :
    sys.server.facade.participantTransports = [] ∧
    sys.server.facade.producers = [] ∧
    sys.server.facade.consumers = [] := by
  have hpt : sys.server.facade.participantTransports = [] := by
    cases hp : sys.server.facade.participantTransports with
    | nil => rfl
    | cons hd tl =>
      exfalso
      refine h.pt_cur hd.1 ?_ (hnone hd.1)
      rw [hp]
      cases hd with
      | mk k v => simp [lookupA]
  have hprodE : sys.server.facade.producers = [] := by
    cases hq : sys.server.facade.producers with
    | nil => rfl
    | cons P tl =>
      exfalso
      obtain ⟨q, rid, R, rec, e1, _, _, _⟩ :=
        h.prod_wit P (by rw [hq]; exact List.mem_cons_self _ _)
      rw [hnone q] at e1
      cases e1
  refine ⟨hpt, hprodE, ?_⟩
  cases hq : sys.server.facade.consumers with
  | nil => rfl
  | cons cp tl =>
    exfalso
    obtain ⟨c, P⟩ := cp
    rcases h.cons_wit c P (by rw [hq]; exact List.mem_cons_self _ _) with
      h1 | h1
    · rw [hprodE] at h1
      simp at h1
    · obtain ⟨q, d, pr, hqd, _⟩ := h1
      rw [hpt] at hqd
      simp [lookupA] at hqd

/-- The trace of claim C3's counterexample: one session joins and then
produces twice before every session ends. -/
def c3trace : List Ev :=
  [Ev.msg "a" (CMsg.join none false), Ev.msg "a" (CMsg.produce 0),
    Ev.msg "a" (CMsg.produce 0)]

/-- Counterexample to claim C3.  The claim says that for every sequence of
messages — explicitly including a participant producing more than once
before leaving — after every session has ended the facade's maps are all
empty.  In the code, a second `produce` overwrites `record.producerId`,
so `handleLeave` closes only the second producer and
`facade.removeParticipant` never touches the producers map: after the
session ends, the orphaned first producer (id 1) is still registered. -/
theorem c3_counterexample :
    (run sys0 (c3trace ++ closesOf c3trace)).server.facade.producers = [1] ∧
    FCall.removeParticipant "a"
      ∈ (run sys0 (c3trace ++ closesOf c3trace)).log := by
  exact ⟨by decide, by decide⟩

/-- Claim C3, amended.  The cleanup guarantee holds on traces satisfying
the discipline `allowedF`: joins follow the C4 join discipline and a
session produces only while its record holds no producer (the
counterexample shows that a repeated produce breaks the guarantee).  For
such traces, after every session has ended, `facade.removeParticipant`
has been invoked for every participant that ever joined, and the facade's
participant-transport, producer and consumer maps are all empty. -/
theorem c3_cleanup_after_all_sessions_end (evs : List Ev)
    (hwf : WFrun allowedF sys0 evs = true) :
    (∀ p roomId caps, Ev.msg p (CMsg.join roomId caps) ∈ evs →
      FCall.removeParticipant p ∈ (run sys0 (evs ++ closesOf evs)).log) ∧
    (run sys0 (evs ++ closesOf evs)).server.facade.participantTransports
      = [] ∧
    (run sys0 (evs ++ closesOf evs)).server.facade.producers = [] ∧
    (run sys0 (evs ++ closesOf evs)).server.facade.consumers = [] := by
  have hwfall : WFrun allowedF sys0 (evs ++ closesOf evs) = true := by
    rw [WFrun_append, hwf, WFrun_closes]
    rfl
  have hfin : GoodF (run sys0 (evs ++ closesOf evs)) :=
    goodF_run goodF_sys0 _ hwfall
  have hnone : ∀ q, curOf (run sys0 (evs ++ closesOf evs)) q = none :=
    fun q => final_cur_none evs q
  obtain ⟨hpt, hprodE, hconsE⟩ := facade_empty_of_no_cur hfin.fac hnone
  refine ⟨?_, hpt, hprodE, hconsE⟩
  intro p roomId caps hmem
  have hct : FCall.createTransport p ∈ (run sys0 evs).log :=
    joins_logged evs sys0 goodF_sys0 hwf p roomId caps hmem
  have hct' : FCall.createTransport p
      ∈ (run sys0 (evs ++ closesOf evs)).log := by
    rw [run_append]
    exact log_mono_run hct
  rcases hfin.log.removed_logged p hct' with h1 | h1
  · exact absurd (hnone p) h1
  · exact h1

theorem c3_cleanup_after_all_sessions_end_witness :
    WFrun allowedF sys0 [Ev.msg "w" (CMsg.join none false)] = true ∧
    FCall.removeParticipant "w" ∈ (run sys0
      ([Ev.msg "w" (CMsg.join none false)]
        ++ closesOf [Ev.msg "w" (CMsg.join none false)])).log :=
  ⟨by decide, (c3_cleanup_after_all_sessions_end
      [Ev.msg "w" (CMsg.join none false)] (by decide)).1 "w" none false
    (by decide)⟩

theorem c2_second_join_notifies_existing_producers_witness :
    countOcc ("b", SMsg.newProducer 5 "a")
        (handleJoin ⟨[("default-room",
            [("a", ⟨some 5, true, false⟩), ("b", ⟨none, false, false⟩)])],
          ⟨[], [], [], 0⟩⟩ none "b" none true).sends = 1 ∧
    (handleJoin ⟨[("default-room",
            [("a", ⟨some 5, true, false⟩), ("b", ⟨none, false, false⟩)])],
          ⟨[], [], [], 0⟩⟩ none "b" none true).calls = [] := by
  have h := c2_second_join_notifies_existing_producers
    ⟨[("default-room",
        [("a", ⟨some 5, true, false⟩), ("b", ⟨none, false, false⟩)])],
      ⟨[], [], [], 0⟩⟩ none "b" none
    [("a", ⟨some 5, true, false⟩), ("b", ⟨none, false, false⟩)]
    ⟨none, false, false⟩ (by decide) (by decide) (by decide)
  refine ⟨?_, h.2.2.2.2⟩
  have h2 := (h.2.1 "a" ⟨some 5, true, false⟩ (by decide) (by decide)).1 5
  simpa using h2

theorem c4_participant_in_at_most_one_room_witness :
    WFrun allowedJ sys0 [Ev.msg "a" (CMsg.join (some "A") false)] = true ∧
    "A" = "A" :=
  ⟨by decide,
    c4_participant_in_at_most_one_room
      [Ev.msg "a" (CMsg.join (some "A") false)] (by decide) "a" "A" "A"
      [("a", ⟨none, false, false⟩)] [("a", ⟨none, false, false⟩)]
      (by decide) (by decide) (by decide) (by decide)⟩

theorem c6_consume_failure_and_success_witness :
    (handleConsume ⟨[("default-room", [])], ⟨[], [], [], 0⟩⟩
        (some "default-room") "w" 0 true none).sends
      = [("w", SMsg.errorMsg ("Failed to create consumer: "
            ++ consumeErrMessage ConsumeErr.cannotConsume "w" 0)),
         ("w", SMsg.producerClosed 0 "unknown")] :=
  (c6_consume_failure_and_success ⟨[("default-room", [])], ⟨[], [], [], 0⟩⟩
      "default-room" "w" 0 true none).1 ConsumeErr.cannotConsume (by rfl)

theorem c7_leave_cleanup_witness :
    (handleLeave ⟨[("r", [("a", ⟨some 3, true, false⟩),
        ("b", ⟨none, false, false⟩)])], ⟨[], [3], [], 4⟩⟩
        (some "r") "a").calls
      = [FCall.closeProducer 3, FCall.removeParticipant "a"] ∧
    (handleLeave ⟨[("r", [("a", ⟨some 3, true, false⟩),
        ("b", ⟨none, false, false⟩)])], ⟨[], [3], [], 4⟩⟩
        (some "r") "a").cur = none := by
  have h := c7_leave_cleanup
    ⟨[("r", [("a", ⟨some 3, true, false⟩), ("b", ⟨none, false, false⟩)])],
      ⟨[], [3], [], 4⟩⟩ "r" "a"
    [("a", ⟨some 3, true, false⟩), ("b", ⟨none, false, false⟩)]
    ⟨some 3, true, false⟩ (by decide) (by decide) (by decide)
  exact ⟨h.1, h.2.1⟩

theorem c8_rejoin_acts_as_first_join_witness :
    (handleJoin ⟨[("default-room", [])], ⟨[], [], [], 0⟩⟩
        none "w" none false).sends = [("w", SMsg.welcome 0)] :=
  (c8_rejoin_acts_as_first_join ⟨[("default-room", [])], ⟨[], [], [], 0⟩⟩
      none "w" none false (Or.inl rfl)).1
